import Mathlib

/-!
# Verification of the rule-engine service specification

Shallow embedding of the rule-engine repository (a Python FastAPI service that
stores JSON-described rules and evaluates them against structured documents),
together with theorems settling the specification claims.

Conventions used throughout the embedding:

* Python/JSON dynamic values are modelled by `PyVal`: null, booleans, numbers
  (modelled as rationals, covering the ints and decimal floats that occur in
  rule documents), strings, lists, and dicts (association lists with the keys
  assumed distinct, as they are in any Python dict).
* Python exceptions are modelled with `Except PyErr`; an operation that can
  raise returns `Except PyErr α`.  Exception texts are carried as strings and
  abbreviated where CPython's exact wording is irrelevant to control flow.
* Python `set[str]` values are modelled as duplicate-free `List String`; the
  iteration order of a Python set is unspecified, so every theorem about a
  category set is stated via membership, never via list order.
-/

/-- Python/JSON dynamic value: null, bool, number, string, list, dict.
Numbers are modelled as rationals (`ℚ`); dicts as association lists with
pairwise-distinct keys, as in any Python dict. -/
inductive PyVal where
  | none : PyVal
  | bool (b : Bool) : PyVal
  | num (q : ℚ) : PyVal
  | str (s : String) : PyVal
  | list (xs : List PyVal) : PyVal
  | dict (kvs : List (String × PyVal)) : PyVal

namespace PyVal

mutual
/-- Decidable structural equality on `PyVal` (deriving cannot handle the
nested recursion, so the instance is spelled out). -/
def decEqVal : (a b : PyVal) → Decidable (a = b)
  | .none, .none => isTrue rfl
  | .bool a, .bool b =>
    match decEq a b with
    | isTrue h => isTrue (by rw [h])
    | isFalse h => isFalse (fun hh => h (by injection hh))
  | .num a, .num b =>
    match decEq a b with
    | isTrue h => isTrue (by rw [h])
    | isFalse h => isFalse (fun hh => h (by injection hh))
  | .str a, .str b =>
    match decEq a b with
    | isTrue h => isTrue (by rw [h])
    | isFalse h => isFalse (fun hh => h (by injection hh))
  | .list xs, .list ys =>
    match decEqValList xs ys with
    | isTrue h => isTrue (by rw [h])
    | isFalse h => isFalse (fun hh => h (by injection hh))
  | .dict xs, .dict ys =>
    match decEqValAssoc xs ys with
    | isTrue h => isTrue (by rw [h])
    | isFalse h => isFalse (fun hh => h (by injection hh))
  | .none, .bool _ => isFalse fun h => PyVal.noConfusion h
  | .none, .num _ => isFalse fun h => PyVal.noConfusion h
  | .none, .str _ => isFalse fun h => PyVal.noConfusion h
  | .none, .list _ => isFalse fun h => PyVal.noConfusion h
  | .none, .dict _ => isFalse fun h => PyVal.noConfusion h
  | .bool _, .none => isFalse fun h => PyVal.noConfusion h
  | .bool _, .num _ => isFalse fun h => PyVal.noConfusion h
  | .bool _, .str _ => isFalse fun h => PyVal.noConfusion h
  | .bool _, .list _ => isFalse fun h => PyVal.noConfusion h
  | .bool _, .dict _ => isFalse fun h => PyVal.noConfusion h
  | .num _, .none => isFalse fun h => PyVal.noConfusion h
  | .num _, .bool _ => isFalse fun h => PyVal.noConfusion h
  | .num _, .str _ => isFalse fun h => PyVal.noConfusion h
  | .num _, .list _ => isFalse fun h => PyVal.noConfusion h
  | .num _, .dict _ => isFalse fun h => PyVal.noConfusion h
  | .str _, .none => isFalse fun h => PyVal.noConfusion h
  | .str _, .bool _ => isFalse fun h => PyVal.noConfusion h
  | .str _, .num _ => isFalse fun h => PyVal.noConfusion h
  | .str _, .list _ => isFalse fun h => PyVal.noConfusion h
  | .str _, .dict _ => isFalse fun h => PyVal.noConfusion h
  | .list _, .none => isFalse fun h => PyVal.noConfusion h
  | .list _, .bool _ => isFalse fun h => PyVal.noConfusion h
  | .list _, .num _ => isFalse fun h => PyVal.noConfusion h
  | .list _, .str _ => isFalse fun h => PyVal.noConfusion h
  | .list _, .dict _ => isFalse fun h => PyVal.noConfusion h
  | .dict _, .none => isFalse fun h => PyVal.noConfusion h
  | .dict _, .bool _ => isFalse fun h => PyVal.noConfusion h
  | .dict _, .num _ => isFalse fun h => PyVal.noConfusion h
  | .dict _, .str _ => isFalse fun h => PyVal.noConfusion h
  | .dict _, .list _ => isFalse fun h => PyVal.noConfusion h

/-- Decidable equality on lists of `PyVal`. -/
def decEqValList : (xs ys : List PyVal) → Decidable (xs = ys)
  | [], [] => isTrue rfl
  | [], _ :: _ => isFalse fun h => List.noConfusion h
  | _ :: _, [] => isFalse fun h => List.noConfusion h
  | x :: xs, y :: ys =>
    match decEqVal x y with
    | isFalse h => isFalse (fun hh => h (by injection hh))
    | isTrue h1 =>
      match decEqValList xs ys with
      | isTrue h2 => isTrue (by rw [h1, h2])
      | isFalse h => isFalse (fun hh => h (by injection hh))

/-- Decidable equality on association lists of `PyVal`. -/
def decEqValAssoc : (xs ys : List (String × PyVal)) → Decidable (xs = ys)
  | [], [] => isTrue rfl
  | [], _ :: _ => isFalse fun h => List.noConfusion h
  | _ :: _, [] => isFalse fun h => List.noConfusion h
  | (k, v) :: xs, (k', v') :: ys =>
    match decEq k k' with
    | isFalse h => isFalse (fun hh => by injection hh with h1 h2; exact h (by injection h1))
    | isTrue hk =>
      match decEqVal v v' with
      | isFalse h => isFalse (fun hh => by injection hh with h1 h2; exact h (by injection h1))
      | isTrue hv =>
        match decEqValAssoc xs ys with
        | isTrue h2 => isTrue (by rw [hk, hv, h2])
        | isFalse h => isFalse (fun hh => h (by injection hh))
end

instance : DecidableEq PyVal := decEqVal

/-- First-occurrence lookup in an association list (Python dict indexing). -/
def alookup (k : String) : List (String × PyVal) → Option PyVal
  | [] => Option.none
  | (k', v) :: rest => if k' = k then some v else alookup k rest

/-- Python key-membership test `k in d` for a dict. -/
def hasKey (k : String) (kvs : List (String × PyVal)) : Bool :=
  (alookup k kvs).isSome

mutual
/-- Python `==` on dynamic values: `True == 1`, numbers by value, strings by
content, lists elementwise, dicts as equal key sets with `==`-equal values. -/
def pyEq : PyVal → PyVal → Bool
  | .none, .none => true
  | .bool a, .bool b => a = b
  | .bool a, .num n => (if a then (1 : ℚ) else 0) = n
  | .num n, .bool a => n = (if a then (1 : ℚ) else 0)
  | .num a, .num b => a = b
  | .str a, .str b => a = b
  | .list xs, .list ys => pyEqList xs ys
  | .dict xs, .dict ys => xs.length = ys.length && pyEqDict xs ys
  | _, _ => false

/-- Elementwise Python `==` on lists. -/
def pyEqList : List PyVal → List PyVal → Bool
  | [], [] => true
  | x :: xs, y :: ys => pyEq x y && pyEqList xs ys
  | _, _ => false

/-- Every pair of the first dict is present and `==`-equal in the second. -/
def pyEqDict : List (String × PyVal) → List (String × PyVal) → Bool
  | [], _ => true
  | (k, v) :: rest, ys =>
    (match alookup k ys with
     | some w => pyEq v w
     | Option.none => false) && pyEqDict rest ys
end

/-- Python truthiness `bool(v)`: null/False/0/""/[]/{} are falsy. -/
def truthy : PyVal → Bool
  | .none => false
  | .bool b => b
  | .num q => decide (q ≠ 0)
  | .str s => decide (s ≠ "")
  | .list xs => !xs.isEmpty
  | .dict kvs => !kvs.isEmpty

end PyVal

example : PyVal.pyEq (.bool true) (.num 1) = true := by decide
example : PyVal.pyEq (.bool true) (.str "yes") = false := by decide
example : PyVal.truthy (.str "yes") = true := by decide
example :
    PyVal.pyEq (.dict [("a", .num 1), ("b", .none)])
      (.dict [("b", .none), ("a", .bool true)]) = true := by decide

/-! ## Python string helpers

Paths are manipulated with Python `str.split`; the embedding works on the
underlying character lists (`String.data`) so that everything reduces in the
kernel. -/

namespace PyStr

/-- Python `s.split(sep)` for a one-character separator: splits at every
occurrence, keeping empty segments (`"".split(".") == [""]`). -/
def pySplit (sep : Char) : List Char → List (List Char)
  | [] => [[]]
  | c :: rest =>
    match pySplit sep rest with
    | [] => [[]]
    | h :: t => if c = sep then [] :: h :: t else (c :: h) :: t

/-- Python `".".join(parts)` on character lists. -/
def pyJoin (sep : Char) : List (List Char) → List Char
  | [] => []
  | [p] => p
  | p :: rest => p ++ sep :: pyJoin sep rest

/-- Python `int(s)`: optional surrounding spaces, optional sign, then at
least one digit; anything else raises `ValueError` (here: `none`). -/
def pyParseInt (s : List Char) : Option Int :=
  let s := (s.dropWhile (· = ' ')).reverse.dropWhile (· = ' ') |>.reverse
  let (sign, digits) : Int × List Char :=
    match s with
    | '-' :: rest => (-1, rest)
    | '+' :: rest => (1, rest)
    | _ => (1, s)
  if digits ≠ [] ∧ digits.all (·.isDigit) then
    some (sign * (digits.foldl (fun acc c => acc * 10 + (c.toNat - '0'.toNat)) 0 : Nat))
  else
    Option.none

/-- Python `float(s)` restricted to plain decimal literals
`[sign]digits[.digits]` (optional surrounding spaces); exponent and special
forms are treated as unparseable. -/
def pyParseFloat (s : List Char) : Option ℚ :=
  let s := (s.dropWhile (· = ' ')).reverse.dropWhile (· = ' ') |>.reverse
  let (sign, body) : ℚ × List Char :=
    match s with
    | '-' :: rest => (-1, rest)
    | '+' :: rest => (1, rest)
    | _ => (1, s)
  match pySplit '.' body with
  | [digits] =>
    if digits ≠ [] ∧ digits.all (·.isDigit) then
      some (sign * ((digits.foldl (fun acc c => acc * 10 + (c.toNat - '0'.toNat)) 0 : Nat) : ℚ))
    else Option.none
  | [intPart, fracPart] =>
    if (intPart ≠ [] ∨ fracPart ≠ []) ∧ intPart.all (·.isDigit) ∧ fracPart.all (·.isDigit) then
      let ip : Nat := intPart.foldl (fun acc c => acc * 10 + (c.toNat - '0'.toNat)) 0
      let fp : Nat := fracPart.foldl (fun acc c => acc * 10 + (c.toNat - '0'.toNat)) 0
      some (sign * ((ip : ℚ) + (fp : ℚ) / ((10 : ℚ) ^ fracPart.length)))
    else Option.none
  | _ => Option.none

end PyStr

/-! ## Path resolver (`rule_engine/utils/path_utils.py`) -/

namespace PathUtils

open PyStr

/-- `PathUtils.simplify_path`: strip a leading `"$."`, then drop the first
dot-segment when there is more than one segment and the first contains `'['`. -/
def simplifyPath (path : String) : String :=
  let p := if path.data.take 2 = ['$', '.'] then path.data.drop 2 else path.data
  let parts := pySplit '.' p
  match parts with
  | [] => ⟨p⟩
  | p0 :: rest =>
    if rest ≠ [] ∧ '[' ∈ p0 then ⟨pyJoin '.' rest⟩ else ⟨p⟩

end PathUtils

example : PathUtils.simplifyPath "$.devices[*].x.y" = "x.y" := by decide
example : PathUtils.simplifyPath "vendor" = "vendor" := by decide

/-! ## Python exceptions -/

/-- A raised Python exception: class name plus `str(e)` text (texts are
abbreviated where CPython wording does not affect control flow). -/
structure PyErr where
  cls : String
  msg : String
deriving DecidableEq, Repr

namespace PyExc

def typeError (m : String) : PyErr := ⟨"TypeError", m⟩
def valueError (m : String) : PyErr := ⟨"ValueError", m⟩
def attributeError (m : String) : PyErr := ⟨"AttributeError", m⟩

end PyExc

instance {ε α : Type} [DecidableEq ε] [DecidableEq α] : DecidableEq (Except ε α) :=
  fun x y =>
    match x, y with
    | .ok a, .ok b =>
      if h : a = b then isTrue (by rw [h]) else isFalse (fun hh => h (by injection hh))
    | .error a, .error b =>
      if h : a = b then isTrue (by rw [h]) else isFalse (fun hh => h (by injection hh))
    | .ok _, .error _ => isFalse fun h => Except.noConfusion h
    | .error _, .ok _ => isFalse fun h => Except.noConfusion h

/-! ## Value lookup inside an entity (`PathUtils.get_value_from_path`) -/

namespace PathUtils

open PyStr PyVal

/-- Python `name in current` (`__contains__`): key test on dicts, `==`
membership on lists, substring test on strings; `TypeError` otherwise. -/
def pyContains (cur : PyVal) (name : String) : Except PyErr Bool :=
  match cur with
  | .dict kvs => .ok (hasKey name kvs)
  | .list xs => .ok (xs.any (pyEq (.str name)))
  | .str s => .ok (decide (List.IsInfix name.data s.data))
  | _ => .error (PyExc.typeError "argument is not iterable")

/-- Python `current[name]` with a string index, reached only after
`name in current` succeeded: dict lookup; `TypeError` on lists and strings
(string/sequence indices must be integers). -/
def pySubscript (cur : PyVal) (name : String) : Except PyErr PyVal :=
  match cur with
  | .dict kvs => .ok ((alookup name kvs).getD .none)
  | _ => .error (PyExc.typeError "indices must be integers")

/-- One step of `get_value_from_path`'s segment loop. -/
def getValueStep (parts : List (List Char)) (cur : PyVal) : Except PyErr PyVal :=
  match parts with
  | [] => .ok cur
  | part :: rest =>
    if '[' ∈ part ∧ ']' ∈ part then
      let arrayName : String := ⟨(pySplit '[' part).headD []⟩
      let afterBracket := (pySplit '[' part).getD 1 []
      let indexPart := (pySplit ']' afterBracket).headD []
      do
        let mem ← pyContains cur arrayName
        if ¬ mem then
          .ok .none
        else
          match pyParseInt indexPart with
          | Option.none => .ok .none
          | some idx => do
            let v ← pySubscript cur arrayName
            match v with
            | .list items =>
              if 0 ≤ idx ∧ idx < items.length then
                getValueStep rest (items.getD idx.toNat .none)
              else
                .ok .none
            | _ => .ok .none
    else
      match cur with
      | .dict kvs =>
        match alookup ⟨part⟩ kvs with
        | some v => getValueStep rest v
        | Option.none => .ok .none
      | _ => .ok .none

/-- `PathUtils.get_value_from_path(entity, path)`: empty path gives null,
else walk the dot-segments, handling `name[N]` segments with list indexing
(out of range or non-list gives null). -/
def getValueFromPath (entity : PyVal) (path : String) : Except PyErr PyVal :=
  if path = "" then .ok .none
  else getValueStep (pySplit '.' path.data) entity

/-- `PathUtils.extract_entity_list(data, entity_type)`: first of the keys
`entity_type + "s"`, `entity_type` whose value is a list (the source checks
the singular key twice; the third arm is identical to the second), else `[]`. -/
def extractEntityList (data : List (String × PyVal)) (entityType : String) : List PyVal :=
  match alookup (entityType ++ "s") data with
  | some (.list xs) => xs
  | _ =>
    match alookup entityType data with
    | some (.list xs) => xs
    | _ => []

end PathUtils

example :
    PathUtils.getValueFromPath (.dict [("vendor", .str "Cisco")]) "vendor" =
      .ok (.str "Cisco") := by decide
example :
    PathUtils.getValueFromPath
      (.dict [("config", .dict [("version", .num 17)])]) "config.version" =
      .ok (.num 17) := by decide
example :
    PathUtils.getValueFromPath
      (.dict [("ports", .list [.num 1, .num 2])]) "ports[1]" = .ok (.num 2) := by decide
example :
    PathUtils.getValueFromPath (.dict [("vendor", .str "Cisco")]) "missing" =
      .ok .none := by decide

/-! ## Operator catalogue (`rule_engine/conditions/operators.py`)

Each operator takes `(actual, expected)` and yields a `Bool`; operators whose
Python body can raise an uncaught exception return it through `Except`.
The `match` operator's regex dialect is modelled by a subset engine
(literals, escaped punctuation, `.`, character classes, `* + ?`, anchors);
patterns outside the subset are treated like `re.error`, which the source
catches and turns into `False`. -/

namespace Operators

open PyVal PyStr

/-- Python `float(x)` as used by the numeric comparisons: numbers and bools
coerce, numeric strings parse, everything else raises (`none` here, caught by
the operator's `except (TypeError, ValueError)`). -/
def pyFloatOf : PyVal → Option ℚ
  | .num q => some q
  | .bool b => some (if b then 1 else 0)
  | .str s => pyParseFloat s.data
  | _ => Option.none

/-- Regex-atom kinds of the modelled `re` subset. -/
inductive RAtom where
  | lit (c : Char)
  | dot
  | cls (neg : Bool) (ranges : List (Char × Char))
  | endAnchor
deriving DecidableEq, Repr

/-- Postfix quantifiers of the modelled `re` subset. -/
inductive RQuant where
  | one
  | star
  | plus
  | opt
deriving DecidableEq, Repr

/-- Does a consuming atom accept character `c`? -/
def atomAccepts : RAtom → Char → Bool
  | .lit c', c => c = c'
  | .dot, c => c ≠ '\n'
  | .cls neg ranges, c =>
    let mem := ranges.any fun r => r.1 ≤ c ∧ c ≤ r.2
    if neg then !mem else mem
  | .endAnchor, _ => false

/-- Parse a character class body (after `[`, up to `]`). -/
def parseClass : List Char → Option (List (Char × Char) × List Char)
  | [] => Option.none
  | ']' :: rest => some ([], rest)
  | '\\' :: _ => Option.none
  | a :: '-' :: b :: rest =>
    if a = ']' then Option.none
    else if b = ']' then
      -- `a-]` : `-` is a literal member
      some ([(a, a), ('-', '-')], rest)
    else
      (parseClass rest).map fun (items, r) => ((a, b) :: items, r)
  | a :: rest =>
    if a = ']' then Option.none
    else (parseClass rest).map fun (items, r) => ((a, a) :: items, r)

/-- Read an optional postfix quantifier. -/
def takeQuant : List Char → RQuant × List Char
  | '*' :: rest => (.star, rest)
  | '+' :: rest => (.plus, rest)
  | '?' :: rest => (.opt, rest)
  | rest => (.one, rest)

/-- Parse a pattern body into atoms; `none` marks a pattern outside the
modelled subset (treated like `re.error`).  Each step consumes at least one
character, so the fuel `length + 1` supplied by `parseRegex` never runs out;
fuel only makes the recursion structural. -/
def parseAtomsF : Nat → List Char → Option (List (RAtom × RQuant))
  | 0, _ => Option.none
  | _ + 1, [] => some []
  | fuel + 1, '$' :: rest => (parseAtomsF fuel rest).map ((RAtom.endAnchor, RQuant.one) :: ·)
  | _ + 1, '\\' :: [] => Option.none
  | fuel + 1, '\\' :: c :: rest =>
    if c.isAlphanum then Option.none
    else (parseAtomsF fuel (takeQuant rest).2).map ((RAtom.lit c, (takeQuant rest).1) :: ·)
  | fuel + 1, '[' :: '^' :: rest =>
    match parseClass rest with
    | some ir =>
      (parseAtomsF fuel (takeQuant ir.2).2).map ((RAtom.cls true ir.1, (takeQuant ir.2).1) :: ·)
    | Option.none => Option.none
  | fuel + 1, '[' :: rest =>
    match parseClass rest with
    | some ir =>
      (parseAtomsF fuel (takeQuant ir.2).2).map ((RAtom.cls false ir.1, (takeQuant ir.2).1) :: ·)
    | Option.none => Option.none
  | fuel + 1, '.' :: rest => (parseAtomsF fuel (takeQuant rest).2).map ((RAtom.dot, (takeQuant rest).1) :: ·)
  | fuel + 1, c :: rest =>
    if c ∈ ['(', ')', '|', '*', '+', '?', '{', '}', '^', '$', '[', ']'] then Option.none
    else (parseAtomsF fuel (takeQuant rest).2).map ((RAtom.lit c, (takeQuant rest).1) :: ·)

/-- A full pattern: an optional leading `^` (redundant under `re.match`). -/
def parseRegex (p : List Char) : Option (List (RAtom × RQuant)) :=
  match p with
  | '^' :: rest => parseAtomsF (rest.length + 1) rest
  | _ => parseAtomsF (p.length + 1) p

/-- Greedy-with-backtracking loop for a starred atom `a`, with `k` the matcher
for the rest of the pattern. -/
def starLoop (a : RAtom) (k : List Char → Bool) : List Char → Bool
  | [] => k []
  | c :: s' => k (c :: s') || (atomAccepts a c && starLoop a k s')

/-- Backtracking matcher: does the atom sequence match a prefix of `s`? -/
def matchSeq : List (RAtom × RQuant) → List Char → Bool
  | [], _ => true
  | (a, q) :: rest, s =>
    let k := matchSeq rest
    match a with
    | .endAnchor => s.isEmpty && k s
    | _ =>
      match q with
      | .one =>
        match s with
        | [] => false
        | c :: s' => atomAccepts a c && k s'
      | .opt =>
        k s ||
          (match s with
           | [] => false
           | c :: s' => atomAccepts a c && k s')
      | .star => starLoop a k s
      | .plus =>
        match s with
        | [] => false
        | c :: s' => atomAccepts a c && starLoop a k s'

/-- `re.match(pattern, s)` truthiness for the modelled subset; unsupported or
invalid patterns behave like `re.error` (the source returns `False`). -/
def pyReMatch (pattern s : String) : Bool :=
  match parseRegex pattern.data with
  | some atoms => matchSeq atoms s.data
  | Option.none => false

/-- `Operator.equal`. -/
def opEqual (actual expected : PyVal) : Except PyErr Bool :=
  .ok (pyEq actual expected)

/-- `Operator.not_equal`. -/
def opNotEqual (actual expected : PyVal) : Except PyErr Bool :=
  .ok (!pyEq actual expected)

/-- `Operator.greater_than`: float-coerce both; coercion failure gives `False`. -/
def opGreaterThan (actual expected : PyVal) : Except PyErr Bool :=
  match pyFloatOf actual, pyFloatOf expected with
  | some a, some e => .ok (decide (a > e))
  | _, _ => .ok false

/-- `Operator.less_than`. -/
def opLessThan (actual expected : PyVal) : Except PyErr Bool :=
  match pyFloatOf actual, pyFloatOf expected with
  | some a, some e => .ok (decide (a < e))
  | _, _ => .ok false

/-- `Operator.greater_than_equal`. -/
def opGreaterThanEqual (actual expected : PyVal) : Except PyErr Bool :=
  match pyFloatOf actual, pyFloatOf expected with
  | some a, some e => .ok (decide (a ≥ e))
  | _, _ => .ok false

/-- `Operator.less_than_equal`. -/
def opLessThanEqual (actual expected : PyVal) : Except PyErr Bool :=
  match pyFloatOf actual, pyFloatOf expected with
  | some a, some e => .ok (decide (a ≤ e))
  | _, _ => .ok false

/-- `Operator.exists`: `(actual is not None) == expected` — note the Python
`==` compares the boolean with the raw `expected`, with no `bool()` coercion. -/
def opExists (actual expected : PyVal) : Except PyErr Bool :=
  .ok (pyEq (.bool (match actual with | .none => false | _ => true)) expected)

/-- `Operator.not_empty`. -/
def opNotEmpty (actual expected : PyVal) : Except PyErr Bool :=
  match actual with
  | .none => .ok (!truthy expected)
  | .list _ | .dict _ | .str _ => .ok (pyEq (.bool (truthy actual)) expected)
  | _ => .ok (truthy expected)

/-- `Operator.match`: string operands only; start-anchored regex match. -/
def opMatch (actual expected : PyVal) : Except PyErr Bool :=
  match actual, expected with
  | .str a, .str e => .ok (pyReMatch e a)
  | _, _ => .ok false

/-- `Operator.contains`: substring on string actuals (a non-string `expected`
raises `TypeError` there, uncaught), membership on list actuals. -/
def opContains (actual expected : PyVal) : Except PyErr Bool :=
  match actual with
  | .none => .ok false
  | .str a =>
    match expected with
    | .str e => .ok (decide (List.IsInfix e.data a.data))
    | _ => .error (PyExc.typeError "in <string> requires string as left operand")
  | .list xs => .ok (xs.any (pyEq expected))
  | _ => .ok false

/-- `Operator.in_list`. -/
def opInList (actual expected : PyVal) : Except PyErr Bool :=
  match expected with
  | .list xs => .ok (xs.any (pyEq actual))
  | _ => .ok false

/-- `not_in_list` (the table's lambda around `in_list`). -/
def opNotInList (actual expected : PyVal) : Except PyErr Bool := do
  let b ← opInList actual expected
  .ok (!b)

/-- `Operator.role_device`: `expected` must name a role, `actual` a string of
length ≥ 3 whose character at position −3 is the role's digit; all of the
guarded failures (wrong types, short strings, unhashable `expected`) give
`False` via the source's `except (IndexError, TypeError)`. -/
def opRoleDevice (actual expected : PyVal) : Except PyErr Bool :=
  match actual with
  | .str a =>
    let code : Option Nat :=
      match expected with
      | .str e =>
        if e = "standalone" then some 0
        else if e = "primary" then some 1
        else if e = "secondary" then some 2
        else Option.none
      | _ => Option.none
    match code with
    | some k =>
      if a.data.length ≥ 3 then
        .ok (Nat.digitChar k = a.data.getD (a.data.length - 3) ' ')
      else .ok false
    | Option.none => .ok false
  | _ => .ok false

/-- Python `len` for the container shapes the length operators accept. -/
def pyLen : PyVal → Option Nat
  | .str s => some s.data.length
  | .list xs => some xs.length
  | .dict kvs => some kvs.length
  | _ => Option.none

/-- `Operator.max_length`: containers only; `len(actual) <= expected` raises
`TypeError` (uncaught) when `expected` is not a number. -/
def opMaxLength (actual expected : PyVal) : Except PyErr Bool :=
  match pyLen actual with
  | Option.none => .ok false
  | some n =>
    match expected with
    | .num q => .ok (decide ((n : ℚ) ≤ q))
    | .bool b => .ok (decide ((n : ℚ) ≤ if b then 1 else 0))
    | _ => .error (PyExc.typeError "not supported between instances")

/-- `Operator.exact_length`: containers only; `==` never raises. -/
def opExactLength (actual expected : PyVal) : Except PyErr Bool :=
  match pyLen actual with
  | Option.none => .ok false
  | some n => .ok (pyEq (.num n) expected)

/-- The operator table of `Operator.get_operator_function`, keys and aliases
exactly as in the source. -/
def opTable (name : String) : Option (PyVal → PyVal → Except PyErr Bool) :=
  if name = "equal" ∨ name = "eq" ∨ name = "=" then some opEqual
  else if name = "not_equal" ∨ name = "neq" then some opNotEqual
  else if name = "greater_than" ∨ name = "gt" then some opGreaterThan
  else if name = "less_than" ∨ name = "lt" then some opLessThan
  else if name = "greater_than_equal" ∨ name = "gte" then some opGreaterThanEqual
  else if name = "less_than_equal" ∨ name = "lte" then some opLessThanEqual
  else if name = "exists" then some opExists
  else if name = "not_empty" then some opNotEmpty
  else if name = "match" ∨ name = "matches" then some opMatch
  else if name = "contains" then some opContains
  else if name = "in_list" then some opInList
  else if name = "not_in_list" then some opNotInList
  else if name = "role_device" then some opRoleDevice
  else if name = "max_length" then some opMaxLength
  else if name = "exact_length" then some opExactLength
  else Option.none

/-- `Operator.get_operator_function` on the raw operator value from the rule:
unknown names raise `ValueError`; unhashable values raise `TypeError` at the
dict-membership test. -/
def getOperatorFunction (opName : PyVal) :
    Except PyErr (PyVal → PyVal → Except PyErr Bool) :=
  match opName with
  | .str o =>
    match opTable o with
    | some f => .ok f
    | Option.none => .error (PyExc.valueError ("Unsupported operator: " ++ o))
  | .list _ | .dict _ => .error (PyExc.typeError "unhashable type")
  | _ => .error (PyExc.valueError "Unsupported operator")

end Operators

example : Operators.pyReMatch "^17\\." "17.3.6" = true := by decide
example : Operators.pyReMatch "^17\\." "16.9.5" = false := by decide
example : Operators.opExists (.str "x") (.bool true) = .ok true := by decide
example : Operators.opRoleDevice (.str "HUJ-AA-101") (.str "primary") = .ok true := by decide
example : Operators.opRoleDevice (.str "HUJ-AA-201") (.str "primary") = .ok false := by decide

/-! ## Failure records (`rule_engine/core/failure_info.py`) -/

/-- `FailureInfo`: describes one failed condition; all fields default to
Python `None` (here: `Option.none` for the string fields, `PyVal.none` for
the value fields). -/
structure FailureInfo where
  operator : Option String := Option.none
  path : Option String := Option.none
  expected_value : PyVal := .none
  actual_value : PyVal := .none
deriving DecidableEq

/-! ## Condition AST (`rule_engine/conditions/`)

`Cond` is the run-time condition-object tree built by `ConditionFactory`.
The `pyNone` constructor stands for a Python `None` placed in a composite's
child list by the factory (`create_condition` of an invalid child); calling
`evaluate_with_details` on it raises `AttributeError`, exactly as in Python.
The leaf keeps the raw values the factory read from the rule dict; type
errors (non-string path or operator) surface at evaluation time, as in the
source. -/
inductive Cond where
  | leaf (path operator value : PyVal)
  | all (cs : List Cond)
  | anyC (cs : List Cond)
  | noneC (cs : List Cond)
  | notC (c : Cond)
  | pyNone

/-- Result of `evaluate_with_details`: `(ok, failures)` where `failures` is
Python `None` (success) or a list of `FailureInfo`. -/
abbrev EvalResult := Bool × Option (List FailureInfo)

namespace CondEval

open PyVal PathUtils Operators

/-- `StandardValueCondition.evaluate_with_details`: simplify the path, fetch
the actual value, look up and apply the operator; on failure emit one
`FailureInfo` carrying the leaf's operator, raw path, expected and actual. -/
def evalLeaf (pathV opV valueV entity : PyVal) : Except PyErr EvalResult := do
  let p ← match pathV with
    | .str s => pure s
    | _ => .error (PyExc.attributeError "object has no attribute startswith")
  let simplified := simplifyPath p
  let actual ← getValueFromPath entity simplified
  let f ← getOperatorFunction opV
  let success ← f actual valueV
  if success then
    .ok (true, Option.none)
  else
    match opV with
    | .str o => .ok (false, some [⟨some o, some p, valueV, actual⟩])
    | _ => .ok (false, some [⟨Option.none, some p, valueV, actual⟩])

mutual
/-- `Condition.evaluate_with_details` for every node shape. -/
def evalCond : Cond → PyVal → Except PyErr EvalResult
  | .leaf p o v, entity => evalLeaf p o v entity
  | .all cs, entity => do
    let fs ← evalAllAux cs entity []
    if fs.isEmpty then .ok (true, Option.none) else .ok (false, some fs)
  | .anyC cs, entity => evalAnyAux cs entity []
  | .noneC cs, entity => evalNoneAux cs entity
  | .notC c, entity => do
    let r ← evalCond c entity
    if r.1 then
      .ok (false, some [⟨some "not", some "composite", .none, .none⟩])
    else
      .ok (true, Option.none)
  | .pyNone, _ =>
    .error (PyExc.attributeError "NoneType object has no attribute evaluate_with_details")

/-- `All.evaluate_with_details` loop: accumulate the failures of failing
children whose failure list is truthy. -/
def evalAllAux : List Cond → PyVal → List FailureInfo → Except PyErr (List FailureInfo)
  | [], _, acc => .ok acc
  | c :: rest, entity, acc => do
    let (success, failures) ← evalCond c entity
    if ¬ success ∧ (failures.getD []) ≠ [] then
      evalAllAux rest entity (acc ++ failures.getD [])
    else
      evalAllAux rest entity acc

/-- `Any.evaluate_with_details` loop: short-circuit on the first ok child,
else accumulate truthy failure lists. -/
def evalAnyAux : List Cond → PyVal → List FailureInfo → Except PyErr EvalResult
  | [], _, acc => .ok (false, some acc)
  | c :: rest, entity, acc => do
    let (success, failures) ← evalCond c entity
    if success then
      .ok (true, Option.none)
    else
      evalAnyAux rest entity (acc ++ failures.getD [])

/-- `None_.evaluate_with_details` loop: fail on the first ok child with a
single composite failure record. -/
def evalNoneAux : List Cond → PyVal → Except PyErr EvalResult
  | [], _ => .ok (true, Option.none)
  | c :: rest, entity => do
    let r ← evalCond c entity
    if r.1 then
      .ok (false, some [⟨some "none", some "composite", .none, .none⟩])
    else
      evalNoneAux rest entity
end

end CondEval

/-! ## Condition factory (`rule_engine/conditions/conditions_factory.py`) -/

/-- Sequential traversal of a list under `Except` (a Python list
comprehension whose body may raise). -/
def exceptMapList {α β : Type} (f : α → Except PyErr β) : List α → Except PyErr (List β)
  | [] => .ok []
  | x :: xs => do
    let y ← f x
    let ys ← exceptMapList f xs
    .ok (y :: ys)

/-- Sequential traversal of a list under `Option` (pydantic validating each
element). -/
def optionMapList {α β : Type} (f : α → Option β) : List α → Option (List β)
  | [] => some []
  | x :: xs => do
    let y ← f x
    let ys ← optionMapList f xs
    some (y :: ys)

namespace Factory

open PyVal

/-- Python iteration over `data.get(key, [])` in the composite `from_dict`s:
lists iterate elements, strings iterate 1-character strings, dicts iterate
keys; other values raise `TypeError`. -/
def pyIter : PyVal → Except PyErr (List PyVal)
  | .list xs => .ok xs
  | .str s => .ok (s.data.map fun c => .str ⟨[c]⟩)
  | .dict kvs => .ok (kvs.map fun kv => .str kv.1)
  | _ => .error (PyExc.typeError "object is not iterable")

mutual
/-- Constructor count of a value; an upper bound on its nesting depth, used
as recursion fuel for the factory. -/
def pySize : PyVal → Nat
  | .list xs => pySizeList xs + 1
  | .dict kvs => pySizeAssoc kvs + 1
  | _ => 1

/-- Total size of a list of values. -/
def pySizeList : List PyVal → Nat
  | [] => 0
  | x :: xs => pySize x + pySizeList xs + 1

/-- Total size of an association list of values. -/
def pySizeAssoc : List (String × PyVal) → Nat
  | [] => 0
  | kv :: rest => pySize kv.2 + pySizeAssoc rest + 1
end

/-- `ConditionFactory.create_condition`: `None` (here `Option.none`) for a
falsy or non-dict argument; composite keys checked in order
`all > any > none > not`, then the leaf shape `path`+`operator`.  Children
run through the factory themselves; an invalid child is the Python `None`
object (`Cond.pyNone`).  The fuel bounds the recursion depth by the size of
the value and never runs out (the 0 case is unreachable from the wrapper);
it only makes the recursion structural. -/
def createConditionF : Nat → PyVal → Except PyErr (Option Cond)
  | 0, _ => .ok Option.none
  | fuel + 1, data =>
    match data with
    | .dict kvs =>
      if kvs.isEmpty then .ok Option.none
      else if hasKey "all" kvs then do
        let items ← pyIter ((alookup "all" kvs).getD .none)
        let children ← exceptMapList (fun i => do
          let c ← createConditionF fuel i
          pure (c.getD Cond.pyNone)) items
        .ok (some (.all children))
      else if hasKey "any" kvs then do
        let items ← pyIter ((alookup "any" kvs).getD .none)
        let children ← exceptMapList (fun i => do
          let c ← createConditionF fuel i
          pure (c.getD Cond.pyNone)) items
        .ok (some (.anyC children))
      else if hasKey "none" kvs then do
        let items ← pyIter ((alookup "none" kvs).getD .none)
        let children ← exceptMapList (fun i => do
          let c ← createConditionF fuel i
          pure (c.getD Cond.pyNone)) items
        .ok (some (.noneC children))
      else if hasKey "not" kvs then do
        let child ← createConditionF fuel ((alookup "not" kvs).getD (.dict []))
        .ok (some (.notC (child.getD .pyNone)))
      else if hasKey "path" kvs ∧ hasKey "operator" kvs then
        .ok (some (.leaf ((alookup "path" kvs).getD (.str ""))
          ((alookup "operator" kvs).getD (.str ""))
          ((alookup "value" kvs).getD .none)))
      else
        .ok Option.none
    | _ => .ok Option.none

/-- `ConditionFactory.create_condition` (fuelled wrapper). -/
def createCondition (data : PyVal) : Except PyErr (Option Cond) :=
  createConditionF (pySize data) data

end Factory

/-! ## Rule evaluator (`rule_engine/core/evaluator.py`) -/

/-- The outcome of one rule over one document
(`rule_engine/core/rule_result.py`); `input_data` carries the rule dict as in
the source. -/
structure RuleResult where
  rule_name : PyVal
  success : Bool
  message : String
  input_data : PyVal := .none
  failing_elements : List PyVal := []
  failure_details : List FailureInfo := []
deriving DecidableEq

namespace Evaluator

open PyVal Factory CondEval PathUtils

/-- The per-entity loop of `evaluate_rule_for_entities`: collect the entities
that fail with a truthy failure list, concatenating their failures. -/
def entityLoop (c : Cond) :
    List PyVal → List PyVal → List FailureInfo →
      Except PyErr (List PyVal × List FailureInfo)
  | [], failing, fails => .ok (failing, fails)
  | entity :: rest, failing, fails => do
    let (passes, failures) ← evalCond c entity
    if ¬ passes ∧ (failures.getD []) ≠ [] then
      entityLoop c rest (failing ++ [entity]) (fails ++ failures.getD [])
    else
      entityLoop c rest failing fails

/-- `RuleEvaluator.evaluate_rule_for_entities(entities, rule)`: missing or
invalid conditions give a failed result over all entities; otherwise run the
tree on each entity and succeed iff no entity was collected as failing. -/
def evaluateRuleForEntities (entities : List PyVal) (rule : List (String × PyVal)) :
    Except PyErr (Bool × List PyVal × List FailureInfo) :=
  match alookup "conditions" rule with
  | Option.none => .ok (false, entities, [{ operator := some "missing", path := some "conditions" }])
  | some conditionsData => do
    let root ← createCondition conditionsData
    match root with
    | Option.none => .ok (false, entities, [{ operator := some "invalid", path := some "conditions" }])
    | some c => do
      let (failing, fails) ← entityLoop c entities [] []
      .ok (failing.isEmpty, failing, fails)

/-- `rule.get("name", "Unnamed Rule")`. -/
def ruleName (rule : List (String × PyVal)) : PyVal :=
  (alookup "name" rule).getD (.str "Unnamed Rule")

/-- The per-rule body of `evaluate_data`, including its `try/except`: an
exception inside one rule's evaluation becomes an error `RuleResult` and
later rules still run. -/
def evaluateOneRule (entities : List PyVal) (rule : List (String × PyVal)) : RuleResult :=
  match evaluateRuleForEntities entities rule with
  | .ok (success, failing, fails) =>
    { rule_name := ruleName rule
      success := success
      message :=
        if success then "All entities fulfill the rule"
        else s!"{failing.length} of {entities.length} entities do not fulfill the rule"
      input_data := .dict rule
      failing_elements := failing
      failure_details := fails }
  | .error e =>
    { rule_name := ruleName rule
      success := false
      message := "Error evaluating rule: " ++ e.msg
      input_data := .dict rule
      failing_elements := []
      failure_details := [{ operator := some "error", path := some e.msg }] }

/-- `RuleEvaluator.evaluate_data(data, rules, entity_type)`: extract the
entity list (empty list short-circuits to no results), then evaluate every
rule, isolating per-rule errors. -/
def evaluateData (data : List (String × PyVal)) (rules : List (List (String × PyVal)))
    (entityType : String) : List RuleResult :=
  let entities := extractEntityList data entityType
  if entities.isEmpty then []
  else rules.map (evaluateOneRule entities)

end Evaluator

example :
    (Evaluator.evaluateData
      [("items", .list [.dict [("id", .str "a"), ("value", .num 10)],
                        .dict [("id", .str "b"), ("value", .num 10)]])]
      [[("name", .str "R1"),
        ("conditions", .dict [("all", .list [.dict [("path", .str "$.items[*].value"),
          ("operator", .str "equal"), ("value", .num 10)]])])]]
      "item").map (fun r => (r.success, r.message, r.failing_elements)) =
      [(true, "All entities fulfill the rule", [])] := by decide

example :
    (Evaluator.evaluateData
      [("items", .list [.dict [("id", .str "a"), ("value", .num 10)],
                        .dict [("id", .str "b"), ("value", .num 15)],
                        .dict [("id", .str "c"), ("value", .num 10)]])]
      [[("name", .str "R1"),
        ("conditions", .dict [("all", .list [.dict [("path", .str "$.items[*].value"),
          ("operator", .str "equal"), ("value", .num 10)]])])]]
      "item").map (fun r => (r.success, r.message, r.failing_elements, r.failure_details)) =
      [(false, "1 of 3 entities do not fulfill the rule",
        [.dict [("id", .str "b"), ("value", .num 15)]],
        [{ operator := some "equal", path := some "$.items[*].value",
           expected_value := .num 10, actual_value := .num 15 }])] := by decide

/-! ## The API condition model (`app/api/models/rules.py`, `RuleCondition`)

`RCond` is the pydantic `RuleCondition` model: seven optional fields, with
`not_` aliased to the wire key `"not"`. -/

/-- The `RuleCondition` pydantic model. -/
inductive RCond where
  | mk (path operator : Option String) (value : Option PyVal)
       (all any none_ : Option (List RCond)) (not_ : Option RCond)

namespace RCond

def path : RCond → Option String | .mk p _ _ _ _ _ _ => p
def operator : RCond → Option String | .mk _ o _ _ _ _ _ => o
def value : RCond → Option PyVal | .mk _ _ v _ _ _ _ => v
def allc : RCond → Option (List RCond) | .mk _ _ _ a _ _ _ => a
def anyc : RCond → Option (List RCond) | .mk _ _ _ _ a _ _ => a
def nonec : RCond → Option (List RCond) | .mk _ _ _ _ _ n _ => n
def notc : RCond → Option RCond | .mk _ _ _ _ _ _ n => n

mutual
/-- Decidable equality on `RCond` (manual, again due to nested recursion). -/
def decEqRC : (a b : RCond) → Decidable (a = b)
  | .mk p1 o1 v1 a1 y1 n1 t1, .mk p2 o2 v2 a2 y2 n2 t2 =>
    match decEq p1 p2 with
    | isFalse h => isFalse (fun hh => h (by injection hh))
    | isTrue hp =>
      match decEq o1 o2 with
      | isFalse h => isFalse (fun hh => h (by injection hh))
      | isTrue ho =>
        match decEq v1 v2 with
        | isFalse h => isFalse (fun hh => h (by injection hh))
        | isTrue hv =>
          match decEqRCOptList a1 a2 with
          | isFalse h => isFalse (fun hh => h (by injection hh))
          | isTrue ha =>
            match decEqRCOptList y1 y2 with
            | isFalse h => isFalse (fun hh => h (by injection hh))
            | isTrue hy =>
              match decEqRCOptList n1 n2 with
              | isFalse h => isFalse (fun hh => h (by injection hh))
              | isTrue hn =>
                match decEqRCOpt t1 t2 with
                | isFalse h => isFalse (fun hh => h (by injection hh))
                | isTrue ht => isTrue (by rw [hp, ho, hv, ha, hy, hn, ht])

/-- Decidable equality on `List RCond`. -/
def decEqRCList : (xs ys : List RCond) → Decidable (xs = ys)
  | [], [] => isTrue rfl
  | [], _ :: _ => isFalse fun h => List.noConfusion h
  | _ :: _, [] => isFalse fun h => List.noConfusion h
  | x :: xs, y :: ys =>
    match decEqRC x y with
    | isFalse h => isFalse (fun hh => h (by injection hh))
    | isTrue h1 =>
      match decEqRCList xs ys with
      | isTrue h2 => isTrue (by rw [h1, h2])
      | isFalse h => isFalse (fun hh => h (by injection hh))

/-- Decidable equality on `Option (List RCond)`. -/
def decEqRCOptList : (x y : Option (List RCond)) → Decidable (x = y)
  | Option.none, Option.none => isTrue rfl
  | Option.none, some _ => isFalse fun h => Option.noConfusion h
  | some _, Option.none => isFalse fun h => Option.noConfusion h
  | some a, some b =>
    match decEqRCList a b with
    | isTrue h => isTrue (by rw [h])
    | isFalse h => isFalse (fun hh => h (by injection hh))

/-- Decidable equality on `Option RCond`. -/
def decEqRCOpt : (x y : Option RCond) → Decidable (x = y)
  | Option.none, Option.none => isTrue rfl
  | Option.none, some _ => isFalse fun h => Option.noConfusion h
  | some _, Option.none => isFalse fun h => Option.noConfusion h
  | some a, some b =>
    match decEqRC a b with
    | isTrue h => isTrue (by rw [h])
    | isFalse h => isFalse (fun hh => h (by injection hh))
end

instance : DecidableEq RCond := decEqRC

mutual
/-- Boolean structural equality on `RCond` (pydantic `__eq__` compares the
fields); unlike the `Decidable` instance this reduces in the kernel, so the
repository's set-membership tests use it. -/
def beqRC : RCond → RCond → Bool
  | .mk p1 o1 v1 a1 y1 n1 t1, .mk p2 o2 v2 a2 y2 n2 t2 =>
    p1 = p2 && o1 = o2 && decide (v1 = v2) &&
      beqRCOptList a1 a2 && beqRCOptList y1 y2 && beqRCOptList n1 n2 && beqRCOpt t1 t2

/-- Boolean equality on `List RCond`. -/
def beqRCList : List RCond → List RCond → Bool
  | [], [] => true
  | x :: xs, y :: ys => beqRC x y && beqRCList xs ys
  | _, _ => false

/-- Boolean equality on `Option (List RCond)`. -/
def beqRCOptList : Option (List RCond) → Option (List RCond) → Bool
  | Option.none, Option.none => true
  | some a, some b => beqRCList a b
  | _, _ => false

/-- Boolean equality on `Option RCond`. -/
def beqRCOpt : Option RCond → Option RCond → Bool
  | Option.none, Option.none => true
  | some a, some b => beqRC a b
  | _, _ => false
end

/-- The all-`None` model (`RuleCondition()` after the validator's reset). -/
def empty : RCond := .mk Option.none Option.none Option.none Option.none Option.none Option.none Option.none

end RCond

namespace RCondSer

open PyVal

mutual
/-- `super().model_dump(by_alias=True)`: all seven keys in field order, with
`None` fields as nulls and children dumped recursively (`not_` under its
alias `"not"`). -/
def rawDump : RCond → List (String × PyVal)
  | .mk p o v a y n t =>
    [("path", match p with | some s => .str s | Option.none => .none),
     ("operator", match o with | some s => .str s | Option.none => .none),
     ("value", v.getD .none),
     ("all", match a with | some cs => .list (rawDumpList cs) | Option.none => .none),
     ("any", match y with | some cs => .list (rawDumpList cs) | Option.none => .none),
     ("none", match n with | some cs => .list (rawDumpList cs) | Option.none => .none),
     ("not", match t with | some c => .dict (rawDump c) | Option.none => .none)]

/-- Dump a child list. -/
def rawDumpList : List RCond → List PyVal
  | [] => []
  | c :: rest => .dict (rawDump c) :: rawDumpList rest
end

mutual
/-- The recursive `clean_dict` of `RuleCondition.model_dump`: drop null
values, clean `all`/`any`/`none` child lists (dropping non-dict items and
items that clean to empty, and the key itself if the cleaned list is empty),
and clean a `not` body (dropping the key if the body cleans to empty). -/
def cleanDict : List (String × PyVal) → List (String × PyVal)
  | [] => []
  | (k, v) :: rest => cleanEntry k v ++ cleanDict rest

/-- One key of `clean_dict`: the empty list means the key is omitted. -/
def cleanEntry (k : String) : PyVal → List (String × PyVal)
  | PyVal.none => []
  | .list items =>
    if k = "all" ∨ k = "any" ∨ k = "none" then
      let cleaned := cleanItems items
      if cleaned.isEmpty then [] else [(k, .list cleaned)]
    else [(k, .list items)]
  | .dict ks =>
    if k = "not" then
      let ck := cleanDict ks
      if ck.isEmpty then [] else [(k, .dict ck)]
    else [(k, .dict ks)]
  | v => [(k, v)]

/-- Clean the items of a composite child list. -/
def cleanItems : List PyVal → List PyVal
  | [] => []
  | .dict ks :: rest =>
    let c := cleanDict ks
    (if c.isEmpty then [] else [PyVal.dict c]) ++ cleanItems rest
  | _ :: rest => cleanItems rest
end

/-- `RuleCondition.model_dump(by_alias=True)`: raw dump, then the recursive
clean. -/
def serialize (c : RCond) : PyVal :=
  .dict (cleanDict (rawDump c))

end RCondSer

namespace RCondParse

open PyVal

/-- Step 1 of `validate_condition_structure`: if the wire key `"not"` is
present and `"not_"` is not, pop `"not"` and append `"not_"` with its value. -/
def renameNot (kvs : List (String × PyVal)) : List (String × PyVal) :=
  if hasKey "not" kvs ∧ ¬ hasKey "not_" kvs then
    (kvs.filter (fun kv => kv.1 ≠ "not")) ++ [("not_", (alookup "not" kvs).getD .none)]
  else kvs

/-- Step 2: if no condition-type key is present at all, replace the data with
`{"path": None, "operator": None, "value": None}`. -/
def ensureConditionType (kvs : List (String × PyVal)) : List (String × PyVal) :=
  if hasKey "path" kvs ∨ hasKey "all" kvs ∨ hasKey "any" kvs ∨ hasKey "none" kvs ∨
      hasKey "not_" kvs then
    kvs
  else
    [("path", .none), ("operator", .none), ("value", .none)]

/-- Step 3, for one of the keys `all`/`any`/`none`: a present non-null
non-list value becomes `[]`; a present empty list is popped. -/
def normalizeListKey (key : String) (kvs : List (String × PyVal)) : List (String × PyVal) :=
  kvs.filterMap fun kv =>
    if kv.1 = key then
      match kv.2 with
      | .none => some kv
      | .list [] => Option.none
      | .list xs => some (kv.1, .list xs)
      | _ => some (kv.1, .list [])
    else some kv

/-- The whole `model_validator(mode='before')`. -/
def validateConditionStructure (kvs : List (String × PyVal)) : List (String × PyVal) :=
  normalizeListKey "none" (normalizeListKey "any" (normalizeListKey "all"
    (ensureConditionType (renameNot kvs))))

/-- Pydantic coercion of an optional string field: absent or null gives the
`None` field; a string is accepted; anything else is a validation error. -/
def parseOptStr (v : Option PyVal) : Option (Option String) :=
  match v with
  | Option.none => some Option.none
  | some .none => some Option.none
  | some (.str s) => some (some s)
  | some _ => Option.none

/-- `Optional[Any]` field: absent and explicit null both give the `None`
field. -/
def parseValueField (v : Option PyVal) : Option PyVal :=
  match v with
  | Option.none => Option.none
  | some PyVal.none => Option.none
  | some w => some w

/-- Pydantic coercion of an `Optional[list[RuleCondition]]` field, given the
element parser: absent and null give the `None` field, a list validates each
element, anything else is a validation error. -/
def parseKidsWith (pf : PyVal → Option RCond) : Option PyVal → Option (Option (List RCond))
  | Option.none => some Option.none
  | some .none => some Option.none
  | some (.list xs) => (optionMapList pf xs).map some
  | some _ => Option.none

/-- Pydantic coercion of the `Optional[RuleCondition]` field (`not_`), given
the parser: absent and null give the `None` field, anything else must
validate as a condition. -/
def parseNotWith (pf : PyVal → Option RCond) : Option PyVal → Option (Option RCond)
  | Option.none => some Option.none
  | some .none => some Option.none
  | some d => (pf d).map some

/-- Pydantic parsing of the `RuleCondition` model (`extra: ignore`): run the
before-validator, then coerce the seven fields; `none` is a
`ValidationError`.  The fuel bounds the recursion depth by the size of the
value and never runs out (the 0 case is unreachable from the wrapper). -/
def parseCondF : Nat → PyVal → Option RCond
  | 0, _ => Option.none
  | fuel + 1, data =>
    match data with
    | .dict kvs0 =>
      let kvs := validateConditionStructure kvs0
      do
        let p ← parseOptStr (alookup "path" kvs)
        let o ← parseOptStr (alookup "operator" kvs)
        let v := parseValueField (alookup "value" kvs)
        let a ← parseKidsWith (parseCondF fuel) (alookup "all" kvs)
        let y ← parseKidsWith (parseCondF fuel) (alookup "any" kvs)
        let n ← parseKidsWith (parseCondF fuel) (alookup "none" kvs)
        let t ← parseNotWith (parseCondF fuel) (alookup "not_" kvs)
        some (RCond.mk p o v a y n t)
    | _ => Option.none

/-- Pydantic validation of a wire value as a `RuleCondition` (fuelled
wrapper). -/
def parseCond (data : PyVal) : Option RCond :=
  parseCondF (Factory.pySize data) data

end RCondParse

example :
    RCondSer.serialize (RCond.mk (some "$.v") (some "equal") (some (.bool false))
      Option.none Option.none Option.none Option.none) =
      .dict [("path", .str "$.v"), ("operator", .str "equal"), ("value", .bool false)] := by
  decide

example :
    RCondParse.parseCond (.dict [("operator", .str "eq")]) = some RCond.empty := rfl

/-! ## Rule repository (`app/services/rule_engine.py` / `spike_rule_engine.py`)

`RuleEngine` (app/services/rule_engine.py) and `SpikeRuleEngine`
(app/services/spike_rule_engine.py) are line-for-line duplicates apart from
logging and naming (`StoredRule` vs `SpikeStoredRule`); one embedding serves
both.  The repository is the dict `rule_repository : dict[str, StoredRule]`
keyed by `f"{entity_type}|{name}"`. -/

/-- The `SpikeRule` pydantic model (a rule definition). -/
structure SpikeRule where
  name : String
  entity_type : String
  description : Option String := Option.none
  conditions : RCond
deriving DecidableEq

/-- The `StoredRule`/`SpikeStoredRule` model: a rule plus repository
metadata. -/
structure StoredRule where
  rule_name : String
  entity_type : String
  description : Option String := Option.none
  categories : List String
  rule : SpikeRule
deriving DecidableEq

/-- The repository dict, in insertion order. -/
abbrev Repo := List (String × StoredRule)

namespace RuleRepo

/-- Generic first-occurrence association-list lookup (dict indexing). -/
def lookupKey {α : Type} (k : String) : List (String × α) → Option α
  | [] => Option.none
  | (k', v) :: rest => if k' = k then some v else lookupKey k rest

/-- Python dict assignment `d[k] = v`: replace in place, else append. -/
def dictSet {α : Type} (k : String) (v : α) : List (String × α) → List (String × α)
  | [] => [(k, v)]
  | (k', v') :: rest => if k' = k then (k, v) :: rest else (k', v') :: dictSet k v rest

/-- The repository key `f"{entity_type}|{rule.name}"`. -/
def storedRuleKey (entityType name : String) : String :=
  entityType ++ "|" ++ name

/-- `RuleEngine.add_rule(rule, categories)`: build a fresh stored rule whose
categories are exactly `list(categories)` (the existing entry's categories
are read only for logging) and overwrite the key.  The Python `set[str]`
argument is passed as a duplicate-free list; `categories=None` defaults to
the empty set at the call sites. -/
def addRule (repo : Repo) (rule : SpikeRule) (categories : List String) : Repo :=
  let key := storedRuleKey rule.entity_type rule.name
  let newStored : StoredRule :=
    { rule_name := rule.name
      entity_type := rule.entity_type
      description := rule.description
      categories := categories
      rule := rule }
  dictSet key newStored repo

/-- `RuleEngine.get_stored_rule_by_name_and_entity_type`: raise `ValueError`
when the key is absent. -/
def getStoredRuleByName (repo : Repo) (ruleName entityType : String) :
    Except PyErr StoredRule :=
  match lookupKey (storedRuleKey entityType ruleName) repo with
  | some sr => .ok sr
  | Option.none =>
    .error (PyExc.valueError
      ("Rule with name '" ++ ruleName ++ "' not found for entity type '" ++ entityType ++ "'"))

/-- `RuleEngine.get_stored_rules_by_names_and_entity_type`: a list
comprehension of lookups, so the first missing name propagates its
`ValueError`. -/
def getStoredRulesByNames (repo : Repo) (ruleNames : List String) (entityType : String) :
    Except PyErr (List StoredRule) :=
  exceptMapList (getStoredRuleByName repo · entityType) ruleNames

/-- `RuleEngine.rule_exists`. -/
def ruleExists (repo : Repo) (ruleName entityType : String) : Bool :=
  (lookupKey (storedRuleKey entityType ruleName) repo).isSome

/-- `RuleEngine.get_stored_rules(entity_type?, categories?)`: the four-way
filter over the repository values, in insertion order. -/
def getStoredRules (repo : Repo) (entityType : Option String)
    (categories : Option (List String)) : List StoredRule :=
  match entityType, categories with
  | Option.none, Option.none => repo.map (·.2)
  | some et, Option.none => (repo.map (·.2)).filter (fun sr => sr.entity_type = et)
  | Option.none, some cats =>
    (repo.map (·.2)).filter (fun sr => cats.any (fun c => c ∈ sr.categories))
  | some et, some cats =>
    (repo.map (·.2)).filter
      (fun sr => sr.entity_type = et ∧ cats.any (fun c => c ∈ sr.categories))

/-- `rules_to_evaluate.update(xs)` followed by `list(rules_to_evaluate)`,
over pydantic `StoredRule` objects: the model is not `frozen`, so pydantic
defines `__eq__` and sets `__hash__ = None` — hashing the first element
raises `TypeError`.  Only an empty update survives, yielding `[]`. -/
def pySetOfStored : List StoredRule → Except PyErr (List StoredRule)
  | [] => .ok []
  | _ :: _ => .error (PyExc.typeError "unhashable type: 'StoredRule'")

/-- `RuleEngine.get_stored_rules_to_evaluate`: `rule_names` (if truthy) takes
precedence over `categories`; otherwise all rules of the entity type.  The
selection is poured into a `set()` — which raises `TypeError` on the first
(unhashable) stored rule, so only an empty selection returns. -/
def getStoredRulesToEvaluate (repo : Repo) (entityType : String)
    (categories ruleNames : Option (List String)) : Except PyErr (List StoredRule) :=
  match ruleNames with
  | some (n :: ns) => do
    let stored ← getStoredRulesByNames repo (n :: ns) entityType
    pySetOfStored stored
  | _ =>
    match categories with
    | some (c :: cs) => pySetOfStored (getStoredRules repo (some entityType) (some (c :: cs)))
    | _ => pySetOfStored (getStoredRules repo (some entityType) Option.none)

/-- `RuleEvaluator.evaluate_data(data, rules, entity_type)` as called by
`evaluate_data_with_criteria`, i.e. over pydantic `StoredRule` objects: the
entity extraction and empty-entities short-circuit run first; then the rule
loop's `rule.get("name", "Unnamed Rule")` — a dict method, outside the
per-rule `try` — raises `AttributeError` on the first model object. -/
def evaluateDataOnModels (data : List (String × PyVal)) (rules : List StoredRule)
    (entityType : String) : Except PyErr (List RuleResult) :=
  let entities := PathUtils.extractEntityList data entityType
  if entities.isEmpty then .ok []
  else
    match rules with
    | [] => .ok []
    | _ :: _ =>
      .error (PyExc.attributeError "'StoredRule' object has no attribute 'get'")

/-- `RuleEngine.evaluate_data_with_criteria`: select the rules (raising
`TypeError` whenever the selection is non-empty), return `[]` when none
match, else run the evaluator on the model objects (unreachable). -/
def evaluateDataWithCriteria (repo : Repo) (data : List (String × PyVal))
    (entityType : String) (categories ruleNames : Option (List String)) :
    Except PyErr (List RuleResult) := do
  let rules ← getStoredRulesToEvaluate repo entityType categories ruleNames
  if rules.isEmpty then
    .ok []
  else
    evaluateDataOnModels data rules entityType

end RuleRepo

/-! ## Service-level store (`RuleService.spike_store_rules`) -/

/-- The `SpikeAPIRule` request model: a rule to store, carrying its target
categories. -/
structure SpikeAPIRule where
  name : String
  description : Option String := Option.none
  conditions : RCond
  add_to_categories : List String := []
deriving DecidableEq

namespace RuleService

open RuleRepo

/-- Python `set(...)` of strings: duplicate-free representative (first
occurrences), order irrelevant. -/
def pySet (xs : List String) : List String :=
  List.foldl (fun acc x => if x ∈ acc then acc else acc ++ [x]) [] xs

/-- One iteration of the `spike_store_rules` loop: read the existing entry's
categories if the key exists, union them (via Python `set`) with the
request's `add_to_categories`, and `add_rule` the new definition with that
set. -/
def spikeStoreRule (repo : Repo) (entityType : String) (rule : SpikeAPIRule) : Repo :=
  let existingCategories : List String :=
    if ruleExists repo rule.name entityType then
      match getStoredRuleByName repo rule.name entityType with
      | .ok sr => sr.categories
      | .error _ => []
    else []
  let newRule : SpikeRule :=
    { name := rule.name
      entity_type := entityType
      description := rule.description
      conditions := rule.conditions }
  let allCategoriesToInclude : List String :=
    if ¬ existingCategories.isEmpty then
      pySet (existingCategories ++ rule.add_to_categories)
    else
      pySet rule.add_to_categories
  addRule repo newRule allCategoriesToInclude

/-- `RuleService.spike_store_rules`: apply the loop body to each request rule
in order. -/
def spikeStoreRules (repo : Repo) (entityType : String) (rules : List SpikeAPIRule) : Repo :=
  rules.foldl (fun r rule => spikeStoreRule r entityType rule) repo

end RuleService

/-! ## The `/evaluate` endpoint (`app/api/routes/evaluate.py`)

The route binds an `EvaluationRequest` (whose pydantic `model_validator`
rejects a request with neither filter), re-checks the same condition itself
inside a `try` whose blanket `except Exception` turns any exception —
including the handler's own `HTTPException(400)` — into a `400`.  The
handler then calls `service.evaluate_data_with_criteria`, but `RuleService`
(`app/services/rule_service.py`) defines no such attribute, so the lookup
raises `AttributeError` and the blanket `except` answers `400` for every
request that passes validation; nothing is ever evaluated.  (The method of
that name exists only on the engine drafts, embedded above as
`RuleRepo.evaluateDataWithCriteria`.) -/

/-- The `EvaluationRequest` body. -/
structure EvaluationRequest where
  data : List (String × PyVal)
  entity_type : String
  categories : Option (List String) := Option.none
  rule_names : Option (List String) := Option.none
deriving DecidableEq

/-- The reply of the `/evaluate` handler, as far as the claims observe it:
a `200` body with the rule results and counters, a handler `400`, or the
`422` FastAPI produces when the request model's validator raises. -/
inductive EvalHttpReply where
  | ok (totalRules passedRules failedRules : Nat) (results : List RuleResult)
  | badRequest (detail : String)
  | validationError (detail : String)
deriving DecidableEq

namespace EvaluateRoute

open RuleRepo

/-- `EvaluationRequest.validate_filtering_criteria` (pydantic `mode='after'`):
raise unless at least one of the filters is present. -/
def validateFilteringCriteria (req : EvaluationRequest) : Except String EvaluationRequest :=
  if req.categories = Option.none ∧ req.rule_names = Option.none then
    .error "At least one of 'categories' or 'rule_names' must be provided"
  else
    .ok req

/-- The `evaluate_data` handler body (after request parsing): inside the
`try`, the neither-filter check raises `HTTPException(400)`, which the
handler's own blanket `except Exception` catches and re-wraps (`str` of a
starlette `HTTPException` is `"<code>: <detail>"`); any other request
reaches `service.evaluate_data_with_criteria`, an attribute `RuleService`
does not define, so the `AttributeError` is caught by the same blanket
`except` and answered as `400`.  The `200` branch of the source is dead
code. -/
def evaluateDataHandler (repo : Repo) (req : EvaluationRequest) : EvalHttpReply :=
  if req.categories = Option.none ∧ req.rule_names = Option.none then
    .badRequest ("Error evaluating data: " ++
      "400: At least one of 'categories' or 'rule_names' must be provided")
  else
    .badRequest ("Error evaluating data: " ++
      "'RuleService' object has no attribute 'evaluate_data_with_criteria'")

/-- The complete `/evaluate` processing: request-model validation (a raised
`ValueError` surfaces as FastAPI's `422`), then the handler. -/
def processEvaluate (repo : Repo) (req : EvaluationRequest) : EvalHttpReply :=
  match validateFilteringCriteria req with
  | .error d => .validationError d
  | .ok r => evaluateDataHandler repo r

end EvaluateRoute

/-! ## Shared helpers for the claim theorems -/

/-- Did an `Except` computation return normally? -/
def isOkE {α : Type} : Except PyErr α → Bool
  | .ok _ => true
  | .error _ => false

/-! ## Claim C9 — path normalisation -/

/-- C9: `simplify_path` satisfies the four specification equations, and in
general strips a leading `"$."` and then drops the first dot-segment exactly
when it contains a bracket and is not the only segment. -/
theorem C9_simplify_path :
    PathUtils.simplifyPath "$.devices[*].x.y" = "x.y" ∧
    PathUtils.simplifyPath "vendor" = "vendor" ∧
    PathUtils.simplifyPath "$.v" = "v" ∧
    PathUtils.simplifyPath "$.devices[0].vendor" = "vendor" ∧
    ∀ path : String,
      PathUtils.simplifyPath path =
        (let stripped :=
          if path.data.take 2 = ['$', '.'] then path.data.drop 2 else path.data
         let parts := PyStr.pySplit '.' stripped
         if parts.length > 1 ∧ '[' ∈ parts.headD [] then
           ⟨PyStr.pyJoin '.' parts.tail⟩
         else ⟨stripped⟩) := by
  refine ⟨by decide, by decide, by decide, by decide, ?_⟩
  intro path
  unfold PathUtils.simplifyPath
  cases hp : PyStr.pySplit '.'
      (if path.data.take 2 = ['$', '.'] then path.data.drop 2 else path.data) with
  | nil => simp [hp]
  | cons p0 rest =>
    cases rest with
    | nil => simp [hp]
    | cons r rs => simp [hp, List.length_cons]

/-! ## Claim C8 — the `exists` operator -/

/-- C8 counterexample: for the non-null actual `"x"` and the non-boolean
truthy expected `"yes"`, the claim's formula
`(actual is not null) == bool(expected)` gives `true = true`, but the code's
`exists` returns `False`: the source compares the boolean against the raw
`expected` with no `bool()` coercion. -/
theorem C8_counterexample :
    Operators.opExists (.str "x") (.str "yes") = .ok false ∧
    (PyVal.str "x" ≠ PyVal.none) ∧
    PyVal.truthy (.str "yes") = true := by
  refine ⟨by decide, by decide, by decide⟩

/-- C8 (amended): `exists` returns true exactly when `expected` is
Python-`==`-equal to the boolean `(actual is not null)` — i.e. `expected` is
that boolean itself, or the number `1`/`0` accordingly; any other expected
value (including truthy non-booleans such as non-empty strings) gives
false. -/
theorem C8_exists_characterisation (actual expected : PyVal) :
    Operators.opExists actual expected =
      .ok (PyVal.pyEq (.bool (match actual with | .none => false | _ => true)) expected) ∧
    (Operators.opExists actual expected = .ok true ↔
      (expected = .bool (match actual with | .none => false | _ => true) ∨
       expected = .num (match actual with | .none => (0 : ℚ) | _ => 1))) := by
  constructor
  · rfl
  · constructor
    · intro h
      unfold Operators.opExists at h
      cases actual <;> cases expected <;> simp_all [PyVal.pyEq]
    · intro h
      unfold Operators.opExists
      cases actual <;> rcases h with h | h <;> subst h <;> simp [PyVal.pyEq]

/-- Reduction of the `Except` monad's bind on a normal result. -/
@[simp]
theorem pyBind_ok {α β : Type} (a : α) (f : α → Except PyErr β) :
    (Except.ok a >>= f) = f a := rfl

/-- Reduction of the `Except` monad's bind on an exception. -/
@[simp]
theorem pyBind_err {α β : Type} (err : PyErr) (f : α → Except PyErr β) :
    ((Except.error err : Except PyErr α) >>= f) = Except.error err := rfl

/-! ## Claim C10 — empty composite children -/

/-- Helper lemma: a failing `Any` with no children contributes nothing to an
enclosing `All`'s accumulator. -/
theorem evalAllAux_emptyAny (e : PyVal) :
    ∀ (pre post : List Cond) (acc : List FailureInfo),
      CondEval.evalAllAux (pre ++ Cond.anyC [] :: post) e acc =
        CondEval.evalAllAux (pre ++ post) e acc := by
  intro pre
  induction pre with
  | nil =>
    intro post acc
    simp [CondEval.evalAllAux, CondEval.evalCond, CondEval.evalAnyAux]
  | cons c pre ih =>
    intro post acc
    simp only [List.cons_append, CondEval.evalAllAux]
    cases hc : CondEval.evalCond c e with
    | error err => simp [hc]
    | ok r => simp [hc, ih]

/-- C10: evaluation of empty composites is total — `All []` is ok with no
failures, `None []` is ok, `Any []` fails with an *empty* failure list — and
such a failing empty `Any` is invisible to an enclosing `All`'s failure
accumulation (the enclosing `All` evaluates as if the child were absent). -/
theorem C10_empty_composites (e : PyVal) :
    CondEval.evalCond (.all []) e = .ok (true, Option.none) ∧
    CondEval.evalCond (.noneC []) e = .ok (true, Option.none) ∧
    CondEval.evalCond (.anyC []) e = .ok (false, some []) ∧
    ∀ (pre post : List Cond),
      CondEval.evalCond (.all (pre ++ Cond.anyC [] :: post)) e =
        CondEval.evalCond (.all (pre ++ post)) e := by
  refine ⟨rfl, rfl, rfl, ?_⟩
  intro pre post
  show (do
      let fs ← CondEval.evalAllAux (pre ++ Cond.anyC [] :: post) e []
      if fs.isEmpty then pure (true, Option.none) else pure (false, some fs) :
        Except PyErr EvalResult) = _
  rw [evalAllAux_emptyAny]
  rfl

/-! ## Claim C4 — `Any` scan order and short-circuit -/

/-- Does `evaluate_with_details` return normally with ok = true? -/
def isOkTrue (c : Cond) (e : PyVal) : Bool :=
  match CondEval.evalCond c e with
  | .ok (true, _) => true
  | _ => false

/-- Does `evaluate_with_details` return normally with ok = false? -/
def isOkFalse (c : Cond) (e : PyVal) : Bool :=
  match CondEval.evalCond c e with
  | .ok (false, _) => true
  | _ => false

/-- The failure list a child contributes (`None` counted as empty, as the
accumulating loops do). -/
def childFailures (c : Cond) (e : PyVal) : List FailureInfo :=
  match CondEval.evalCond c e with
  | .ok r => r.2.getD []
  | .error _ => []

/-- `Any` scan with all-failing children, with the accumulator general. -/
theorem evalAnyAux_allFail (e : PyVal) :
    ∀ (cs : List Cond) (acc : List FailureInfo),
      (∀ c ∈ cs, isOkFalse c e) →
      CondEval.evalAnyAux cs e acc =
        .ok (false, some (acc ++ (cs.map (fun c => childFailures c e)).flatten)) := by
  intro cs
  induction cs with
  | nil => intro acc _; simp [CondEval.evalAnyAux]
  | cons c rest ih =>
    intro acc h
    have hc : isOkFalse c e := h c (by simp)
    unfold isOkFalse at hc
    simp only [CondEval.evalAnyAux]
    cases he : CondEval.evalCond c e with
    | error err => rw [he] at hc; simp at hc
    | ok r =>
      rw [he] at hc
      obtain ⟨b, f⟩ := r
      cases b with
      | true => simp at hc
      | false =>
        have := ih (acc ++ f.getD []) (fun c' hc' => h c' (by simp [hc']))
        simp [he, this, childFailures, List.append_assoc]

/-- `Any` scan reaching an ok child after failing ones short-circuits. -/
theorem evalAnyAux_reach_ok (e : PyVal) :
    ∀ (pre : List Cond) (c : Cond) (post : List Cond) (acc : List FailureInfo),
      (∀ c' ∈ pre, isOkFalse c' e) → isOkTrue c e →
      CondEval.evalAnyAux (pre ++ c :: post) e acc = .ok (true, Option.none) := by
  intro pre
  induction pre with
  | nil =>
    intro c post acc _ hc
    unfold isOkTrue at hc
    simp only [List.nil_append, CondEval.evalAnyAux]
    cases he : CondEval.evalCond c e with
    | error err => rw [he] at hc; simp at hc
    | ok r =>
      rw [he] at hc
      obtain ⟨b, f⟩ := r
      cases b with
      | false => simp at hc
      | true => simp
  | cons c' pre ih =>
    intro c post acc h hc
    have hc' : isOkFalse c' e := h c' (by simp)
    unfold isOkFalse at hc'
    simp only [List.cons_append, CondEval.evalAnyAux]
    cases he : CondEval.evalCond c' e with
    | error err => rw [he] at hc'; simp at hc'
    | ok r =>
      rw [he] at hc'
      obtain ⟨b, f⟩ := r
      cases b with
      | true => simp at hc'
      | false =>
        simpa using ih c post (acc ++ f.getD []) (fun x hx => h x (by simp [hx])) hc

/-- C4: an `Any` node scans its children in order — (i) if the first child is
ok the node is `(true, no failures)` with the later children never evaluated
(they may even be ones whose evaluation would raise); (ii) if the children
before some ok child all evaluate to not-ok, the node is `(true, no
failures)`; (iii) if every child evaluates to not-ok, the node is `(false,
the concatenation in child order of the children's failure lists)`. -/
theorem C4_any_scan (e : PyVal) :
    (∀ (c : Cond) (rest : List Cond), isOkTrue c e →
      CondEval.evalCond (.anyC (c :: rest)) e = .ok (true, Option.none)) ∧
    (∀ (pre : List Cond) (c : Cond) (post : List Cond),
      (∀ c' ∈ pre, isOkFalse c' e) → isOkTrue c e →
      CondEval.evalCond (.anyC (pre ++ c :: post)) e = .ok (true, Option.none)) ∧
    (∀ (cs : List Cond),
      (∀ c ∈ cs, isOkFalse c e) →
      CondEval.evalCond (.anyC cs) e =
        .ok (false, some ((cs.map (fun c => childFailures c e)).flatten))) := by
  refine ⟨?_, ?_, ?_⟩
  · intro c rest hc
    have := evalAnyAux_reach_ok e [] c rest [] (by simp) hc
    simpa [CondEval.evalCond] using this
  · intro pre c post hpre hc
    have := evalAnyAux_reach_ok e pre c post [] hpre hc
    simpa [CondEval.evalCond] using this
  · intro cs h
    have := evalAnyAux_allFail e cs [] h
    simpa [CondEval.evalCond] using this

/-- Concrete conditions for the C4 witness: over the empty entity, an
`exists false` leaf is ok, an `exists true` leaf fails, and an unknown
operator raises. -/
def c4Ok : Cond := .leaf (.str "p") (.str "exists") (.bool false)

/-- A failing leaf for the C4 witness. -/
def c4Fail : Cond := .leaf (.str "q") (.str "exists") (.bool true)

/-- A raising leaf for the C4 witness. -/
def c4Err : Cond := .leaf (.str "p") (.str "bogus") .none

/-- C4 witness: the three clauses applied at concrete children over the
empty entity — note clause (i) is applied with a child whose own evaluation
raises sitting after the ok child. -/
theorem C4_any_scan_witness :
    CondEval.evalCond (.anyC [c4Ok, c4Err]) (.dict []) = .ok (true, Option.none) ∧
    CondEval.evalCond (.anyC [c4Fail, c4Ok, c4Err]) (.dict []) = .ok (true, Option.none) ∧
    CondEval.evalCond (.anyC [c4Fail, c4Fail]) (.dict []) =
      .ok (false, some (([c4Fail, c4Fail].map (fun c => childFailures c (.dict []))).flatten)) :=
  ⟨(C4_any_scan (.dict [])).1 c4Ok [c4Err] (by decide),
   (C4_any_scan (.dict [])).2.1 [c4Fail] c4Ok [c4Err] (by decide) (by decide),
   (C4_any_scan (.dict [])).2.2 [c4Fail, c4Fail] (by decide)⟩

/-! ## Claim C6 — `get_many` filter conjunction -/

/-- C6: with an entity type and a non-empty category list supplied,
`get_stored_rules` returns exactly the stored rules whose entity type
matches and whose category set meets the supplied ones. -/
theorem C6_filter_conjunction (repo : Repo) (E : String) (S : List String)
    (hS : S ≠ []) (sr : StoredRule) :
    sr ∈ RuleRepo.getStoredRules repo (some E) (some S) ↔
      (sr ∈ repo.map (·.2) ∧ sr.entity_type = E ∧ ∃ c ∈ S, c ∈ sr.categories) := by
  unfold RuleRepo.getStoredRules
  simp [List.mem_filter, List.any_eq_true, and_assoc]

/-- A stored rule for the C6 witness. -/
def c6Stored (n e : String) (cats : List String) : StoredRule :=
  { rule_name := n
    entity_type := e
    categories := cats
    rule := { name := n, entity_type := e, conditions := RCond.empty } }

/-- C6 witness: the filter characterisation applied to a concrete repository
and rule. -/
theorem C6_filter_conjunction_witness :
    (["x", "y"] : List String) ≠ [] ∧
    (c6Stored "A" "E" ["x"] ∈
        RuleRepo.getStoredRules
          [("E|A", c6Stored "A" "E" ["x"]), ("F|B", c6Stored "B" "F" ["x"])]
          (some "E") (some ["x", "y"]) ↔
      (c6Stored "A" "E" ["x"] ∈
          [("E|A", c6Stored "A" "E" ["x"]), ("F|B", c6Stored "B" "F" ["x"])].map (·.2) ∧
        (c6Stored "A" "E" ["x"]).entity_type = "E" ∧
        ∃ c ∈ (["x", "y"] : List String), c ∈ (c6Stored "A" "E" ["x"]).categories)) :=
  ⟨by decide,
   C6_filter_conjunction
     [("E|A", c6Stored "A" "E" ["x"]), ("F|B", c6Stored "B" "F" ["x"])]
     "E" ["x", "y"] (by decide) (c6Stored "A" "E" ["x"])⟩

/-! ## Claim C1 — upsert and category merge -/

/-- `d[k] = v` makes a later lookup of `k` find `v`. -/
theorem lookupKey_dictSet_self {α : Type} (k : String) (v : α) (m : List (String × α)) :
    RuleRepo.lookupKey k (RuleRepo.dictSet k v m) = some v := by
  induction m with
  | nil => simp [RuleRepo.dictSet, RuleRepo.lookupKey]
  | cons kv rest ih =>
    obtain ⟨k', v'⟩ := kv
    by_cases h : k' = k
    · simp [RuleRepo.dictSet, RuleRepo.lookupKey, h]
    · simp [RuleRepo.dictSet, RuleRepo.lookupKey, h, ih]

/-- Membership in the `pySet` representative is membership in the original
list. -/
theorem mem_pySet (x : String) (l : List String) :
    x ∈ RuleService.pySet l ↔ x ∈ l := by
  have aux : ∀ (l acc : List String),
      x ∈ List.foldl (fun acc x => if x ∈ acc then acc else acc ++ [x]) acc l ↔
        x ∈ acc ∨ x ∈ l := by
    intro l
    induction l with
    | nil => intro acc; simp
    | cons y ys ih =>
      intro acc
      by_cases hy : y ∈ acc
      · rw [List.foldl_cons, if_pos hy, ih]
        constructor
        · rintro (h | h)
          · exact Or.inl h
          · exact Or.inr (List.mem_cons_of_mem y h)
        · rintro (h | h)
          · exact Or.inl h
          · rcases List.mem_cons.mp h with rfl | h
            · exact Or.inl hy
            · exact Or.inr h
      · rw [List.foldl_cons, if_neg hy, ih]
        simp only [List.mem_append, List.mem_singleton, List.mem_cons]
        tauto
  rw [RuleService.pySet, aux]
  simp

/-- The `pySet` representative is empty only for the empty list. -/
theorem pySet_eq_nil_iff (l : List String) : RuleService.pySet l = [] ↔ l = [] := by
  constructor
  · intro h
    cases l with
    | nil => rfl
    | cons x xs =>
      exfalso
      have : x ∈ RuleService.pySet (x :: xs) := (mem_pySet x (x :: xs)).mpr (by simp)
      rw [h] at this
      simp at this
  · rintro rfl
    rfl

/-- A rule definition for the C1 counterexample (the conditions are
irrelevant to the repository semantics). -/
def c1Rule : SpikeRule :=
  { name := "X", entity_type := "E", conditions := RCond.empty }

/-- C1 counterexample: two successive repository `add_rule` calls with the
same key and categories `{"a"}` then `{"b"}` leave the stored category set
`{"b"}`, not the union `{"a","b"}`: `add_rule` *replaces* the category set
(the existing categories are read only for logging); the set union lives one
layer up, in `RuleService.spike_store_rules`. -/
theorem C1_counterexample :
    (RuleRepo.lookupKey "E|X"
        (RuleRepo.addRule (RuleRepo.addRule [] c1Rule ["a"]) c1Rule ["b"])).map
      (fun sr => sr.categories) = some ["b"] ∧
    "a" ∉ (["b"] : List String) := by
  exact ⟨by decide, by decide⟩

/-- C1 (amended): after two `add_rule` calls with the same `(entity_type,
name)` the stored rule holds the second call's definition and exactly the
second call's category set; the `C₁ ∪ C₂` upsert-merge holds one layer up,
for two `spike_store_rules` store operations on a previously absent key,
where the service reads the existing categories and passes the union to
`add_rule`. -/
theorem C1_upsert_amended :
    (∀ (repo : Repo) (r r' : SpikeRule) (cats1 cats2 : List String),
      r'.entity_type = r.entity_type → r'.name = r.name →
      RuleRepo.lookupKey (RuleRepo.storedRuleKey r.entity_type r.name)
          (RuleRepo.addRule (RuleRepo.addRule repo r cats1) r' cats2) =
        some { rule_name := r'.name, entity_type := r'.entity_type,
               description := r'.description, categories := cats2, rule := r' }) ∧
    (∀ (repo : Repo) (E : String) (rule1 rule2 : SpikeAPIRule),
      rule2.name = rule1.name →
      RuleRepo.ruleExists repo rule1.name E = false →
      ∃ sr,
        RuleRepo.lookupKey (RuleRepo.storedRuleKey E rule1.name)
            (RuleService.spikeStoreRule (RuleService.spikeStoreRule repo E rule1) E rule2) =
          some sr ∧
        sr.rule = { name := rule2.name, entity_type := E,
                    description := rule2.description, conditions := rule2.conditions } ∧
        ∀ c, c ∈ sr.categories ↔
          (c ∈ rule1.add_to_categories ∨ c ∈ rule2.add_to_categories)) := by
  constructor
  · intro repo r r' cats1 cats2 hE hN
    unfold RuleRepo.addRule
    rw [hE, hN]
    exact lookupKey_dictSet_self _ _ _
  · intro repo E rule1 rule2 hName hAbsent
    -- the first store lands on an absent key, so it stores `pySet cats1`
    have step1 :
        RuleService.spikeStoreRule repo E rule1 =
          RuleRepo.addRule repo
            { name := rule1.name, entity_type := E, description := rule1.description,
              conditions := rule1.conditions }
            (RuleService.pySet rule1.add_to_categories) := by
      unfold RuleService.spikeStoreRule
      rw [RuleRepo.ruleExists] at hAbsent
      simp [RuleRepo.ruleExists, hAbsent]
    set repo1 := RuleService.spikeStoreRule repo E rule1 with hrepo1
    have hlook1 :
        RuleRepo.lookupKey (RuleRepo.storedRuleKey E rule2.name) repo1 =
          some { rule_name := rule1.name, entity_type := E,
                 description := rule1.description,
                 categories := RuleService.pySet rule1.add_to_categories,
                 rule := { name := rule1.name, entity_type := E,
                           description := rule1.description,
                           conditions := rule1.conditions } } := by
      rw [step1, hName]
      unfold RuleRepo.addRule
      exact lookupKey_dictSet_self _ _ _
    have hEx :
        RuleRepo.ruleExists repo1 rule2.name E = true := by
      unfold RuleRepo.ruleExists
      rw [hlook1]
      rfl
    have hget :
        RuleRepo.getStoredRuleByName repo1 rule2.name E =
          .ok { rule_name := rule1.name, entity_type := E,
                description := rule1.description,
                categories := RuleService.pySet rule1.add_to_categories,
                rule := { name := rule1.name, entity_type := E,
                          description := rule1.description,
                          conditions := rule1.conditions } } := by
      unfold RuleRepo.getStoredRuleByName
      rw [hlook1]
    have step2 : RuleService.spikeStoreRule repo1 E rule2 =
        RuleRepo.addRule repo1
          { name := rule2.name, entity_type := E, description := rule2.description,
            conditions := rule2.conditions }
          (if ¬ (RuleService.pySet rule1.add_to_categories).isEmpty then
            RuleService.pySet (RuleService.pySet rule1.add_to_categories ++
              rule2.add_to_categories)
          else RuleService.pySet rule2.add_to_categories) := by
      unfold RuleService.spikeStoreRule
      simp only [hEx, hget, if_true]
    rw [step2]
    refine ⟨{ rule_name := rule2.name, entity_type := E, description := rule2.description,
              categories :=
                (if ¬ (RuleService.pySet rule1.add_to_categories).isEmpty then
                  RuleService.pySet (RuleService.pySet rule1.add_to_categories ++
                    rule2.add_to_categories)
                else RuleService.pySet rule2.add_to_categories),
              rule := { name := rule2.name, entity_type := E,
                        description := rule2.description,
                        conditions := rule2.conditions } }, ?_, rfl, ?_⟩
    · unfold RuleRepo.addRule
      rw [← hName]
      exact lookupKey_dictSet_self _ _ _
    · intro c
      by_cases hemp : (RuleService.pySet rule1.add_to_categories).isEmpty
      · have h1' : rule1.add_to_categories = [] :=
          (pySet_eq_nil_iff _).mp (List.isEmpty_iff.mp hemp)
        have hnil : RuleService.pySet [] = [] := rfl
        simp [hemp, mem_pySet, h1', hnil]
      · simp [hemp, mem_pySet]

/-- A request rule for the C1 witness. -/
def c1Api (cats : List String) : SpikeAPIRule :=
  { name := "X", conditions := RCond.empty, add_to_categories := cats }

/-- C1 witness: the amended upsert behaviour at a concrete repository — the
repository-level add replaces categories, the service-level store merges. -/
theorem C1_upsert_amended_witness :
    (RuleRepo.lookupKey (RuleRepo.storedRuleKey "E" "X")
        (RuleRepo.addRule (RuleRepo.addRule [] c1Rule ["a"]) c1Rule ["b"]) =
      some { rule_name := "X", entity_type := "E", description := Option.none,
             categories := ["b"], rule := c1Rule }) ∧
    (∃ sr,
      RuleRepo.lookupKey (RuleRepo.storedRuleKey "E" "X")
          (RuleService.spikeStoreRule (RuleService.spikeStoreRule [] "E" (c1Api ["a"]))
            "E" (c1Api ["b"])) = some sr ∧
      sr.rule = { name := "X", entity_type := "E", description := Option.none,
                  conditions := RCond.empty } ∧
      ∀ c, c ∈ sr.categories ↔ (c ∈ (["a"] : List String) ∨ c ∈ (["b"] : List String))) :=
  ⟨C1_upsert_amended.1 [] c1Rule c1Rule ["a"] ["b"] rfl rfl,
   C1_upsert_amended.2 [] "E" (c1Api ["a"]) (c1Api ["b"]) rfl (by decide)⟩

/-! ## Claim C2 — unresolvable rule names -/

/-- The repository for the C2 counterexample: one rule `R` under entity type
`E`. -/
def c2Repo : Repo :=
  RuleRepo.addRule [] { name := "R", entity_type := "E", conditions := RCond.empty } ["x"]

/-- C2 counterexample: with rule `R` stored, asking for `["R", "missing"]`
does not silently drop `"missing"` — the lookup raises `ValueError` and the
whole selection (hence the evaluation) fails; nothing is evaluated for `R`
either. -/
theorem C2_counterexample :
    RuleRepo.getStoredRulesByNames c2Repo ["R", "missing"] "E" =
      .error (PyExc.valueError "Rule with name 'missing' not found for entity type 'E'") ∧
    isOkE (RuleRepo.getStoredRulesToEvaluate c2Repo "E" Option.none (some ["R", "missing"])) =
      false := by
  exact ⟨by decide, by decide⟩

/-- One step of the by-name lookup list. -/
theorem getStoredRulesByNames_cons (repo : Repo) (E m : String) (rest : List String) :
    RuleRepo.getStoredRulesByNames repo (m :: rest) E =
      (do
        let sr ← RuleRepo.getStoredRuleByName repo m E
        let rs ← RuleRepo.getStoredRulesByNames repo rest E
        .ok (sr :: rs)) := rfl

/-- C2 (amended): a rule name that does not resolve under the entity type
raises `ValueError`, aborting the whole by-name selection (so the `400`
error path is taken and nothing is evaluated, not even the resolvable
names); when every name resolves, the selection returns exactly the stored
rules the names point to. -/
theorem C2_missing_name_raises (repo : Repo) (E : String) (names : List String) :
    ((∃ n ∈ names, RuleRepo.ruleExists repo n E = false) →
      isOkE (RuleRepo.getStoredRulesByNames repo names E) = false ∧
      isOkE (RuleRepo.getStoredRulesToEvaluate repo E Option.none (some names)) = false) ∧
    ((∀ n ∈ names, RuleRepo.ruleExists repo n E = true) →
      ∃ rs, RuleRepo.getStoredRulesByNames repo names E = .ok rs ∧
        rs.length = names.length ∧
        ∀ sr ∈ rs, ∃ n ∈ names,
          RuleRepo.lookupKey (RuleRepo.storedRuleKey E n) repo = some sr) := by
  constructor
  · intro hmiss
    have hfail : isOkE (RuleRepo.getStoredRulesByNames repo names E) = false := by
      obtain ⟨n, hn, habs⟩ := hmiss
      induction names with
      | nil => simp at hn
      | cons m rest ih =>
        rw [getStoredRulesByNames_cons]
        rcases List.mem_cons.mp hn with rfl | hn'
        · have hnone : RuleRepo.lookupKey (RuleRepo.storedRuleKey E n) repo = Option.none := by
            unfold RuleRepo.ruleExists at habs
            cases h : RuleRepo.lookupKey (RuleRepo.storedRuleKey E n) repo with
            | none => rfl
            | some s => rw [h] at habs; simp at habs
          unfold RuleRepo.getStoredRuleByName
          rw [hnone]
          rfl
        · cases hm : RuleRepo.getStoredRuleByName repo m E with
          | error err => simp [hm, isOkE]
          | ok sr =>
            have := ih hn'
            simp only [hm, pyBind_ok]
            cases hrest : RuleRepo.getStoredRulesByNames repo rest E with
            | error err => simp [hrest, isOkE]
            | ok rs => rw [hrest] at this; simp [isOkE] at this
    refine ⟨hfail, ?_⟩
    obtain ⟨n, hn, _⟩ := hmiss
    cases names with
    | nil => simp at hn
    | cons m rest =>
      unfold RuleRepo.getStoredRulesToEvaluate
      cases hsel : RuleRepo.getStoredRulesByNames repo (m :: rest) E with
      | error err => simp [hsel, isOkE]
      | ok rs => rw [hsel] at hfail; simp [isOkE] at hfail
  · intro hall
    induction names with
    | nil => exact ⟨[], rfl, rfl, by simp⟩
    | cons m rest ih =>
      have hm : RuleRepo.ruleExists repo m E = true := hall m (by simp)
      rw [RuleRepo.ruleExists, Option.isSome_iff_exists] at hm
      obtain ⟨sr, hsr⟩ := hm
      obtain ⟨rs, hrs, hlen, hmem⟩ := ih (fun n hn => hall n (by simp [hn]))
      refine ⟨sr :: rs, ?_, by simp [hlen], ?_⟩
      · rw [getStoredRulesByNames_cons]
        have hm' : RuleRepo.getStoredRuleByName repo m E = .ok sr := by
          unfold RuleRepo.getStoredRuleByName
          rw [hsr]
        rw [hm', hrs]
        rfl
      · intro x hx
        rcases List.mem_cons.mp hx with rfl | hx'
        · exact ⟨m, by simp, hsr⟩
        · obtain ⟨n, hn, hl⟩ := hmem x hx'
          exact ⟨n, by simp [hn], hl⟩

/-- C2 witness: the amended behaviour at the concrete repository — the
mixed name list aborts, the all-resolvable list returns the stored rule. -/
theorem C2_missing_name_raises_witness :
    (isOkE (RuleRepo.getStoredRulesByNames c2Repo ["R", "missing"] "E") = false ∧
      isOkE (RuleRepo.getStoredRulesToEvaluate c2Repo "E" Option.none
        (some ["R", "missing"])) = false) ∧
    (∃ rs, RuleRepo.getStoredRulesByNames c2Repo ["R"] "E" = .ok rs ∧
      rs.length = (["R"] : List String).length ∧
      ∀ sr ∈ rs, ∃ n ∈ (["R"] : List String),
        RuleRepo.lookupKey (RuleRepo.storedRuleKey "E" n) c2Repo = some sr) :=
  ⟨(C2_missing_name_raises c2Repo "E" ["R", "missing"]).1 (by decide),
   (C2_missing_name_raises c2Repo "E" ["R"]).2 (by decide)⟩

/-! ## Claim C3 — `/evaluate` filter combinations -/

/-- The condition of the C3 witness's stored rule. -/
def c3Cond : RCond :=
  .mk (some "$.devices[*].mgmtIP") (some "exists") (some (.bool true))
    Option.none Option.none Option.none Option.none

/-- A repository with one rule `R` (category `x`) for the C3 witness. -/
def c3Repo : Repo :=
  RuleService.spikeStoreRule [] "device"
    { name := "R", conditions := c3Cond, add_to_categories := ["x"] }

/-- A request supplying *both* `categories` and `rule_names`. -/
def c3Req : EvaluationRequest :=
  { data := [("devices", .list [.dict [("mgmtIP", .str "1.2.3.4")]])]
    entity_type := "device"
    categories := some ["x"]
    rule_names := some ["R"] }

/-- Only an empty `set().update` over stored rules returns normally, and it
returns the empty list. -/
theorem pySetOfStored_ok_nil {xs rules : List StoredRule}
    (h : RuleRepo.pySetOfStored xs = .ok rules) : rules = [] := by
  cases xs with
  | nil =>
    injection h with h
    exact h.symm
  | cons a b => exact absurd h (by simp [RuleRepo.pySetOfStored])

/-- A rule selection that returns normally is empty: any non-empty
selection raises `TypeError` hashing the first unhashable stored rule. -/
theorem getStoredRulesToEvaluate_ok_nil {repo : Repo} {E : String}
    {cats names : Option (List String)} {rules : List StoredRule}
    (h : RuleRepo.getStoredRulesToEvaluate repo E cats names = .ok rules) :
    rules = [] := by
  rcases names with _ | nlist
  · rcases cats with _ | clist
    · exact pySetOfStored_ok_nil h
    · rcases clist with _ | ⟨c, cs⟩
      · exact pySetOfStored_ok_nil h
      · exact pySetOfStored_ok_nil h
  · rcases nlist with _ | ⟨n, ns⟩
    · rcases cats with _ | clist
      · exact pySetOfStored_ok_nil h
      · rcases clist with _ | ⟨c, cs⟩
        · exact pySetOfStored_ok_nil h
        · exact pySetOfStored_ok_nil h
    · simp only [RuleRepo.getStoredRulesToEvaluate] at h
      cases hsel : RuleRepo.getStoredRulesByNames repo (n :: ns) E with
      | error e => rw [hsel] at h; simp at h
      | ok stored =>
        rw [hsel] at h
        simp only [pyBind_ok] at h
        exact pySetOfStored_ok_nil h

/-- C3 counterexample: the neither-filter half of the claim does not answer
`400` in the source — the request model's own validator raises first, so
FastAPI answers `422`; the handler's duplicate `400` check is dead code. -/
theorem C3_counterexample :
    EvaluateRoute.processEvaluate [] { data := [], entity_type := "E" } =
      .validationError "At least one of 'categories' or 'rule_names' must be provided" ∧
    ∀ d, EvaluateRoute.processEvaluate [] { data := [], entity_type := "E" } ≠
      .badRequest d := by
  refine ⟨by decide, ?_⟩
  intro d h
  rw [show EvaluateRoute.processEvaluate [] { data := [], entity_type := "E" } =
        .validationError "At least one of 'categories' or 'rule_names' must be provided"
      from by decide] at h
  exact EvalHttpReply.noConfusion h

/-- C3 (amended): the neither-filter case is rejected by the request model's
validator, surfacing as FastAPI's `422`, with no evaluation; every request
that passes validation — in particular one carrying both `categories` and
`rule_names` — is answered `400` with no evaluation, because the handler's
`service.evaluate_data_with_criteria` lookup raises `AttributeError`
(`RuleService` defines no such method) and the blanket `except` turns it
into `400`; independently, the engine-level method can only ever return
normally with zero results (a non-empty selection raises `TypeError` at
`set().update`), so no rule is ever evaluated through this endpoint. -/
theorem C3_filter_validation :
    (∀ (repo : Repo) (req : EvaluationRequest),
      req.categories = Option.none → req.rule_names = Option.none →
      EvaluateRoute.processEvaluate repo req =
        .validationError "At least one of 'categories' or 'rule_names' must be provided") ∧
    (∀ (repo : Repo) (req : EvaluationRequest),
      req.categories ≠ Option.none ∨ req.rule_names ≠ Option.none →
      EvaluateRoute.processEvaluate repo req =
        .badRequest ("Error evaluating data: " ++
          "'RuleService' object has no attribute 'evaluate_data_with_criteria'")) ∧
    (∀ (repo : Repo) (data : List (String × PyVal)) (E : String)
        (cats names : Option (List String)) (rs : List RuleResult),
      RuleRepo.evaluateDataWithCriteria repo data E cats names = .ok rs → rs = []) := by
  refine ⟨?_, ?_, ?_⟩
  · intro repo req h1 h2
    unfold EvaluateRoute.processEvaluate EvaluateRoute.validateFilteringCriteria
    simp [h1, h2]
  · intro repo req h
    have hcond : ¬(req.categories = Option.none ∧ req.rule_names = Option.none) := by
      rcases h with h | h
      · exact fun hc => h hc.1
      · exact fun hc => h hc.2
    unfold EvaluateRoute.processEvaluate EvaluateRoute.validateFilteringCriteria
      EvaluateRoute.evaluateDataHandler
    simp [hcond]
  · intro repo data E cats names rs h
    unfold RuleRepo.evaluateDataWithCriteria at h
    cases hsel : RuleRepo.getStoredRulesToEvaluate repo E cats names with
    | error e =>
      rw [hsel] at h
      simp at h
    | ok rules =>
      have hnil := getStoredRulesToEvaluate_ok_nil hsel
      subst hnil
      rw [hsel] at h
      simp only [pyBind_ok] at h
      simp at h
      exact h

/-- C3 witness: the amended behaviour at concrete inputs — a neither-filter
request dies at validation (`422`), the both-filter request `c3Req` is
answered `400`, and a concrete engine-level call that returns normally
(category matching nothing) returns zero results. -/
theorem C3_filter_validation_witness :
    (EvaluateRoute.processEvaluate [] { data := [], entity_type := "E" } =
      .validationError "At least one of 'categories' or 'rule_names' must be provided") ∧
    (EvaluateRoute.processEvaluate c3Repo c3Req =
      .badRequest ("Error evaluating data: " ++
        "'RuleService' object has no attribute 'evaluate_data_with_criteria'")) ∧
    ([] : List RuleResult) = [] :=
  ⟨C3_filter_validation.1 [] { data := [], entity_type := "E" } rfl rfl,
   C3_filter_validation.2.1 c3Repo c3Req (Or.inr (by decide)),
   C3_filter_validation.2.2 c3Repo [] "device" (some ["nomatch"]) Option.none []
     (by decide)⟩

/-! ## Claim C5 — per-rule result composition -/

/-- Is an entity collected as failing by `evaluate_rule_for_entities`
(fails the tree *and* carries a truthy failure list)? -/
def collectedFailing (c : Cond) (ent : PyVal) : Bool :=
  match CondEval.evalCond c ent with
  | .ok r => !r.1 && !(r.2.getD []).isEmpty
  | .error _ => false

/-- The entity loop collects, in input order, exactly the entities that fail
with a truthy failure list, concatenating their failures. -/
theorem entityLoop_spec (c : Cond) :
    ∀ (entities failing : List PyVal) (fails : List FailureInfo),
      (∀ ent ∈ entities, isOkE (CondEval.evalCond c ent) = true) →
      Evaluator.entityLoop c entities failing fails =
        .ok (failing ++ entities.filter (collectedFailing c),
             fails ++ ((entities.filter (collectedFailing c)).map
               (fun ent => childFailures c ent)).flatten) := by
  intro entities
  induction entities with
  | nil => intro failing fails _; simp [Evaluator.entityLoop]
  | cons ent rest ih =>
    intro failing fails hok
    have hokrest : ∀ x ∈ rest, isOkE (CondEval.evalCond c x) = true :=
      fun x hx => hok x (List.mem_cons_of_mem _ hx)
    have hent : isOkE (CondEval.evalCond c ent) = true := hok ent (List.mem_cons_self ent rest)
    unfold Evaluator.entityLoop
    cases he : CondEval.evalCond c ent with
    | error err => rw [he] at hent; simp [isOkE] at hent
    | ok r =>
      obtain ⟨passes, failures⟩ := r
      have hcf : collectedFailing c ent = (!passes && !(failures.getD []).isEmpty) := by
        unfold collectedFailing
        rw [he]
      simp only [pyBind_ok]
      cases passes with
      | true =>
        rw [if_neg (by simp)]
        rw [ih _ _ hokrest]
        have hc0 : collectedFailing c ent = false := by simp [hcf]
        simp [List.filter_cons, hc0]
      | false =>
        cases hfe : failures.getD [] with
        | nil =>
          rw [if_neg (by simp [hfe])]
          rw [ih _ _ hokrest]
          have hc0 : collectedFailing c ent = false := by simp [hcf, hfe]
          simp [List.filter_cons, hc0]
        | cons f fs =>
          rw [if_pos (by simp [hfe])]
          rw [ih _ _ hokrest]
          have hc1 : collectedFailing c ent = true := by simp [hcf, hfe]
          have hch : childFailures c ent = failures.getD [] := by
            unfold childFailures
            rw [he]
          simp [List.filter_cons, hc1, hch, hfe, List.append_assoc]

/-- C5: with a constructible condition tree and a non-empty entity list of
length `n`, the produced `RuleResult` has `success` exactly when the list of
collected failing entities is empty, the specified message with `k` the
number of failing entities, and `failing_elements` listing the failing
entities in input order; and the evaluator returns one such result per
selected rule, in selection order. -/
theorem C5_rule_result :
    (∀ (rule : List (String × PyVal)) (entities : List PyVal)
        (condData : PyVal) (c : Cond),
      entities ≠ [] →
      PyVal.alookup "conditions" rule = some condData →
      Factory.createCondition condData = .ok (some c) →
      (∀ ent ∈ entities, isOkE (CondEval.evalCond c ent) = true) →
      (Evaluator.evaluateOneRule entities rule).success =
          (entities.filter (collectedFailing c)).isEmpty ∧
      (Evaluator.evaluateOneRule entities rule).failing_elements =
          entities.filter (collectedFailing c) ∧
      (Evaluator.evaluateOneRule entities rule).message =
          (if (entities.filter (collectedFailing c)).isEmpty then
            "All entities fulfill the rule"
          else
            s!"{(entities.filter (collectedFailing c)).length} of {entities.length} entities do not fulfill the rule")) ∧
    (∀ (data : List (String × PyVal)) (rules : List (List (String × PyVal))) (et : String),
      PathUtils.extractEntityList data et ≠ [] →
      Evaluator.evaluateData data rules et =
        rules.map (Evaluator.evaluateOneRule (PathUtils.extractEntityList data et))) := by
  constructor
  · intro rule entities condData c hne hcond hc hok
    have hloop := entityLoop_spec c entities [] [] hok
    have heval : Evaluator.evaluateRuleForEntities entities rule =
        .ok ((entities.filter (collectedFailing c)).isEmpty,
             entities.filter (collectedFailing c),
             ((entities.filter (collectedFailing c)).map
               (fun ent => childFailures c ent)).flatten) := by
      unfold Evaluator.evaluateRuleForEntities
      rw [hcond]
      simp only [hc, pyBind_ok]
      rw [hloop]
      simp
    unfold Evaluator.evaluateOneRule
    rw [heval]
    refine ⟨rfl, rfl, ?_⟩
    by_cases h : (entities.filter (collectedFailing c)).isEmpty <;> simp [h]
  · intro data rules et hne
    unfold Evaluator.evaluateData
    rw [if_neg (by simpa [List.isEmpty_iff] using hne)]

/-- Entities for the C5 witness (spec scenario S2). -/
def c5Entities : List PyVal :=
  [.dict [("id", .str "a"), ("value", .num 10)],
   .dict [("id", .str "b"), ("value", .num 15)],
   .dict [("id", .str "c"), ("value", .num 10)]]

/-- The condition dict of the C5 witness rule. -/
def c5CondData : PyVal :=
  .dict [("all", .list [.dict [("path", .str "$.items[*].value"),
    ("operator", .str "equal"), ("value", .num 10)]])]

/-- The C5 witness rule dict. -/
def c5Rule : List (String × PyVal) :=
  [("name", .str "R1"), ("conditions", c5CondData)]

/-- The condition object the factory builds for the C5 witness. -/
def c5Cond : Cond :=
  .all [.leaf (.str "$.items[*].value") (.str "equal") (.num 10)]

/-- C5 witness: the result composition at the concrete scenario — three
entities of which one fails. -/
theorem C5_rule_result_witness :
    c5Entities ≠ [] ∧
    PyVal.alookup "conditions" c5Rule = some c5CondData ∧
    Factory.createCondition c5CondData = .ok (some c5Cond) ∧
    (∀ ent ∈ c5Entities, isOkE (CondEval.evalCond c5Cond ent) = true) ∧
    ((Evaluator.evaluateOneRule c5Entities c5Rule).success =
        (c5Entities.filter (collectedFailing c5Cond)).isEmpty ∧
      (Evaluator.evaluateOneRule c5Entities c5Rule).failing_elements =
        c5Entities.filter (collectedFailing c5Cond) ∧
      (Evaluator.evaluateOneRule c5Entities c5Rule).message =
        (if (c5Entities.filter (collectedFailing c5Cond)).isEmpty then
          "All entities fulfill the rule"
        else
          s!"{(c5Entities.filter (collectedFailing c5Cond)).length} of {c5Entities.length} entities do not fulfill the rule")) :=
  ⟨by decide, rfl, rfl, by decide,
   C5_rule_result.1 c5Rule c5Entities c5CondData c5Cond (by decide) rfl rfl (by decide)⟩

/-! ## Claim C7 — serialisation cleanliness and round-trip

`cleanOut` is the claim's cleanliness property over the condition structure
of a wire value: no null-valued key, `all`/`any`/`none` keys carry non-empty
lists of non-empty clean condition dicts, and a `not` key carries a
non-empty clean dict; `value` payloads are opaque. -/

namespace CleanSpec

open PyVal

mutual
/-- Cleanliness of a condition dict's entries. -/
def cleanOutKvs : List (String × PyVal) → Bool
  | [] => true
  | (k, v) :: rest => cleanOutEntryP k v && cleanOutKvs rest

/-- Cleanliness of one entry. -/
def cleanOutEntryP (k : String) : PyVal → Bool
  | PyVal.none => false
  | .list items =>
    if k = "all" ∨ k = "any" ∨ k = "none" then !items.isEmpty && cleanOutItems items
    else true
  | .dict ks =>
    if k = "not" then !ks.isEmpty && cleanOutKvs ks
    else true
  | _ => true

/-- Cleanliness of a composite child list. -/
def cleanOutItems : List PyVal → Bool
  | [] => true
  | item :: rest => cleanOutItemP item && cleanOutItems rest

/-- Cleanliness of one child: a non-empty clean dict. -/
def cleanOutItemP : PyVal → Bool
  | .dict ks => !ks.isEmpty && cleanOutKvs ks
  | _ => false
end

/-- Cleanliness of a serialised condition value. -/
def cleanOut : PyVal → Bool
  | .dict kvs => cleanOutKvs kvs
  | _ => true

/-- Entry-wise split of `cleanOutKvs` over an append. -/
theorem cleanOutKvs_append (xs ys : List (String × PyVal)) :
    cleanOutKvs (xs ++ ys) = (cleanOutKvs xs && cleanOutKvs ys) := by
  induction xs with
  | nil => simp [cleanOutKvs]
  | cons kv rest ih =>
    obtain ⟨k, v⟩ := kv
    simp [cleanOutKvs, ih, Bool.and_assoc]

/-- The cleaner's output is clean, jointly for dicts, single entries and
child lists. -/
theorem cleaner_is_clean :
    (∀ kvs, cleanOutKvs (RCondSer.cleanDict kvs) = true) ∧
    (∀ (k : String) (v : PyVal), cleanOutKvs (RCondSer.cleanEntry k v) = true) ∧
    (∀ items, cleanOutItems (RCondSer.cleanItems items) = true) := by
  apply RCondSer.cleanDict.mutual_induct
  · intro k
    rfl
  · intro k items hk cl hemp ih
    have hemp' : (RCondSer.cleanItems items).isEmpty = true := hemp
    simp [RCondSer.cleanEntry, if_pos hk, hemp', cleanOutKvs]
  · intro k items hk cl hemp ih
    have hemp2 : (RCondSer.cleanItems items).isEmpty = false := by simpa using hemp
    simp [RCondSer.cleanEntry, if_pos hk, hemp2, cleanOutKvs, cleanOutEntryP, ih]
  · intro k items hk
    simp [RCondSer.cleanEntry, if_neg hk, cleanOutKvs, cleanOutEntryP, hk]
  · intro ks cl hemp ih
    have hemp' : (RCondSer.cleanDict ks).isEmpty = true := hemp
    simp [RCondSer.cleanEntry, hemp', cleanOutKvs]
  · intro ks cl hemp ih
    have hemp2 : (RCondSer.cleanDict ks).isEmpty = false := by simpa using hemp
    simp [RCondSer.cleanEntry, hemp2, cleanOutKvs, cleanOutEntryP, ih]
  · intro k ks hk
    simp [RCondSer.cleanEntry, if_neg hk, cleanOutKvs, cleanOutEntryP, hk]
  · intro k v h1 h2 h3
    cases v with
    | none => exact absurd rfl h1
    | list items => exact absurd rfl (h2 items)
    | dict ks => exact absurd rfl (h3 ks)
    | bool b => rfl
    | num q => rfl
    | str s => rfl
  · rfl
  · intro ks rest ih1 ih3
    simp only [RCondSer.cleanItems]
    by_cases hemp : (RCondSer.cleanDict ks).isEmpty = true
    · simp [hemp, ih3]
    · have hemp2 : (RCondSer.cleanDict ks).isEmpty = false := by simpa using hemp
      simp [hemp2, cleanOutItems, cleanOutItemP, ih1, ih3]
  · intro head rest hnd ih
    cases head with
    | dict ks => exact absurd rfl (hnd ks)
    | none => simpa [RCondSer.cleanItems] using ih
    | bool b => simpa [RCondSer.cleanItems] using ih
    | num q => simpa [RCondSer.cleanItems] using ih
    | str s => simpa [RCondSer.cleanItems] using ih
    | list xs => simpa [RCondSer.cleanItems] using ih
  · rfl
  · intro k v rest ih2 ih1
    simp [RCondSer.cleanDict, cleanOutKvs_append, ih2, ih1]

end CleanSpec

namespace CleanSpec

open PyVal

/-- Every dict nested anywhere in the value has pairwise-distinct keys
(true of any value decoded from JSON, where dict keys are unique). -/
def keysDistinct : List (String × PyVal) → Bool
  | [] => true
  | (k, _) :: rest => !hasKey k rest && keysDistinct rest

mutual
/-- JSON-shaped value: dicts at every depth have distinct keys. -/
def jsonOk : PyVal → Bool
  | .list xs => jsonOkList xs
  | .dict kvs => keysDistinct kvs && jsonOkAssoc kvs
  | _ => true

/-- `jsonOk` on each element. -/
def jsonOkList : List PyVal → Bool
  | [] => true
  | x :: xs => jsonOk x && jsonOkList xs

/-- `jsonOk` on each value of an association list. -/
def jsonOkAssoc : List (String × PyVal) → Bool
  | [] => true
  | (_, v) :: rest => jsonOk v && jsonOkAssoc rest
end

/-- A successful lookup is a membership. -/
theorem alookup_mem {k : String} {l : List (String × PyVal)} {v : PyVal}
    (h : alookup k l = some v) : (k, v) ∈ l := by
  induction l with
  | nil => simp [alookup] at h
  | cons kv rest ih =>
    obtain ⟨k', v'⟩ := kv
    by_cases hk : k' = k
    · subst hk
      simp [alookup] at h
      simp [h]
    · simp [alookup, hk] at h
      exact List.mem_cons_of_mem _ (ih h)

/-- Key membership is membership in the key projection. -/
theorem hasKey_iff_mem_keys {k : String} {l : List (String × PyVal)} :
    hasKey k l = true ↔ k ∈ l.map Prod.fst := by
  induction l with
  | nil => simp [hasKey, alookup]
  | cons kv rest ih =>
    obtain ⟨k', v'⟩ := kv
    by_cases hk : k' = k
    · subst hk
      simp [hasKey, alookup]
    · simp [hasKey, alookup, hk] at ih ⊢
      rw [ih]
      constructor
      · exact Or.inr
      · rintro (h | h)
        · exact absurd h.symm hk
        · exact h

/-- `keysDistinct` is `Nodup` of the key projection. -/
theorem keysDistinct_iff_nodup {l : List (String × PyVal)} :
    keysDistinct l = true ↔ (l.map Prod.fst).Nodup := by
  induction l with
  | nil => simp [keysDistinct]
  | cons kv rest ih =>
    obtain ⟨k, v⟩ := kv
    simp only [keysDistinct, Bool.and_eq_true, ih, List.map_cons, List.nodup_cons]
    constructor
    · rintro ⟨h1, h2⟩
      refine ⟨?_, h2⟩
      intro hmem
      rw [← hasKey_iff_mem_keys] at hmem
      simp [hmem] at h1
    · rintro ⟨h1, h2⟩
      have h3 : hasKey k rest = false := by
        cases h : hasKey k rest
        · rfl
        · exact absurd (hasKey_iff_mem_keys.mp h) h1
      simp [h3, h2]

/-- With distinct keys, membership determines the lookup. -/
theorem alookup_of_mem_distinct {k : String} {v : PyVal} {l : List (String × PyVal)}
    (hd : keysDistinct l = true) (hm : (k, v) ∈ l) : alookup k l = some v := by
  induction l with
  | nil => simp at hm
  | cons kv rest ih =>
    obtain ⟨k', v'⟩ := kv
    simp [keysDistinct, Bool.and_eq_true] at hd
    rcases List.mem_cons.mp hm with h | h
    · injection h with h1 h2
      subst h1
      subst h2
      simp [alookup]
    · have hk : k' ≠ k := by
        intro he
        subst he
        have : hasKey k' rest = true := by
          rw [hasKey_iff_mem_keys]
          exact List.mem_map.mpr ⟨(k', v), h, rfl⟩
        simp [this] at hd
      simp [alookup, hk]
      exact ih hd.2 h

/-- Characterisation of the one-directional dict inclusion check. -/
theorem pyEqDict_eq_true_iff {xs ys : List (String × PyVal)} :
    pyEqDict xs ys = true ↔
      ∀ p ∈ xs, ∃ u, alookup p.1 ys = some u ∧ pyEq p.2 u = true := by
  induction xs with
  | nil => simp [pyEqDict]
  | cons kv rest ih =>
    obtain ⟨k, v⟩ := kv
    rw [pyEqDict]
    rw [Bool.and_eq_true, ih]
    constructor
    · rintro ⟨h1, h2⟩ p hp
      rcases List.mem_cons.mp hp with h | h
      · subst h
        cases hu : alookup k ys with
        | none => rw [hu] at h1; simp at h1
        | some u =>
          rw [hu] at h1
          exact ⟨u, rfl, h1⟩
      · exact h2 p h
    · intro h
      refine ⟨?_, fun p hp => h p (List.mem_cons_of_mem _ hp)⟩
      obtain ⟨u, hu, he⟩ := h (k, v) (List.mem_cons_self _ _)
      rw [hu]
      exact he

/-- The inclusion check distributes over an append on the left. -/
theorem pyEqDict_append {xs ys zs : List (String × PyVal)} :
    pyEqDict (xs ++ ys) zs = (pyEqDict xs zs && pyEqDict ys zs) := by
  induction xs with
  | nil => simp [pyEqDict]
  | cons kv rest ih =>
    obtain ⟨k, v⟩ := kv
    simp only [List.cons_append, pyEqDict, List.append_eq, ih]
    rw [Bool.and_assoc]

end CleanSpec

namespace CleanSpec

open PyVal

/-- Python `==` is reflexive on JSON-shaped values, jointly for values,
dict entry lists and element lists. -/
theorem pyEq_refl_all :
    (∀ v, jsonOk v = true → pyEq v v = true) ∧
    (∀ kvs, jsonOkAssoc kvs = true → ∀ p ∈ kvs, pyEq p.2 p.2 = true) ∧
    (∀ xs, jsonOkList xs = true → pyEqList xs xs = true) := by
  apply jsonOk.mutual_induct
  · intro xs ih h
    rw [jsonOk] at h
    rw [pyEq]
    exact ih h
  · intro kvs ih h
    rw [jsonOk, Bool.and_eq_true] at h
    rw [pyEq, Bool.and_eq_true]
    refine ⟨by simp, ?_⟩
    rw [pyEqDict_eq_true_iff]
    intro p hp
    exact ⟨p.2, alookup_of_mem_distinct h.1 hp, ih h.2 p hp⟩
  · intro v h1 h2 _
    cases v with
    | list xs => exact absurd rfl (h1 xs)
    | dict kvs => exact absurd rfl (h2 kvs)
    | none => rfl
    | bool b => simp [pyEq]
    | num q => simp [pyEq]
    | str s => simp [pyEq]
  · intro _
    rfl
  · intro x xs ih1 ih2 h
    rw [jsonOkList, Bool.and_eq_true] at h
    rw [pyEqList, Bool.and_eq_true]
    exact ⟨ih1 h.1, ih2 h.2⟩
  · intro _ p hp
    simp at hp
  · intro k v rest ih1 ih2 h p hp
    rw [jsonOkAssoc, Bool.and_eq_true] at h
    rcases List.mem_cons.mp hp with hh | hh
    · subst hh
      exact ih1 h.1
    · exact ih2 h.2 p hh

end CleanSpec

namespace CleanSpec

open PyVal

/-- Some condition-type wire key (`path`/`all`/`any`/`none`/`not`) is
present. -/
def hasCondKey (kvs : List (String × PyVal)) : Bool :=
  hasKey "path" kvs || hasKey "all" kvs || hasKey "any" kvs ||
    hasKey "none" kvs || hasKey "not" kvs

mutual
/-- Structurally valid clean wire condition: a dict with distinct keys,
a condition-type key, and only recognised keys with type-correct non-null
values (`all`/`any`/`none` carry non-empty lists of such dicts, `not`
carries such a dict, `path`/`operator` carry strings, `value` carries a
non-null JSON-shaped payload). -/
def wcKvs : List (String × PyVal) → Bool
  | [] => true
  | (k, v) :: rest => wcEntry k v && wcKvs rest

/-- Validity of one wire entry. -/
def wcEntry (k : String) : PyVal → Bool
  | PyVal.none => false
  | .bool _ => decide (k = "value")
  | .num _ => decide (k = "value")
  | .str _ => decide (k = "path" ∨ k = "operator" ∨ k = "value")
  | .list items =>
    if k = "all" ∨ k = "any" ∨ k = "none" then !items.isEmpty && wcItems items
    else decide (k = "value") && jsonOkList items
  | .dict ks =>
    if k = "not" then hasCondKey ks && keysDistinct ks && wcKvs ks
    else decide (k = "value") && keysDistinct ks && jsonOkAssoc ks

/-- Validity of a composite child list. -/
def wcItems : List PyVal → Bool
  | [] => true
  | item :: rest => wcItem item && wcItems rest

/-- Validity of one child: a structurally valid clean condition dict. -/
def wcItem : PyVal → Bool
  | .dict ks => hasCondKey ks && keysDistinct ks && wcKvs ks
  | _ => false
end

/-- A structurally valid clean wire condition value. -/
def wireClean : PyVal → Bool
  | .dict kvs => hasCondKey kvs && keysDistinct kvs && wcKvs kvs
  | _ => false

/-- A valid entry never has key `"not_"`. -/
theorem wcEntry_not_underscore (v : PyVal) : wcEntry "not_" v = false := by
  cases v <;> simp [wcEntry]

/-- A valid entry's key is one of the seven wire keys. -/
theorem wcEntry_key_mem {k : String} {v : PyVal} (h : wcEntry k v = true) :
    k ∈ ["path", "operator", "value", "all", "any", "none", "not"] := by
  cases v with
  | none => simp [wcEntry] at h
  | bool b => simp [wcEntry] at h; simp [h]
  | num q => simp [wcEntry] at h; simp [h]
  | str s =>
    simp [wcEntry] at h
    rcases h with h | h | h <;> simp [h]
  | list items =>
    rw [wcEntry] at h
    by_cases hk : k = "all" ∨ k = "any" ∨ k = "none"
    · rcases hk with h' | h' | h' <;> simp [h']
    · rw [if_neg hk, Bool.and_eq_true, decide_eq_true_eq] at h
      simp [h.1]
  | dict ks =>
    rw [wcEntry] at h
    by_cases hk : k = "not"
    · simp [hk]
    · rw [if_neg hk, Bool.and_eq_true, Bool.and_eq_true, decide_eq_true_eq] at h
      simp [h.1.1]

/-- In a valid entry list, looked-up values satisfy the entry predicate. -/
theorem wcEntry_of_alookup {k : String} {kvs : List (String × PyVal)} {v : PyVal}
    (hwc : wcKvs kvs = true) (h : alookup k kvs = some v) : wcEntry k v = true := by
  induction kvs with
  | nil => simp [alookup] at h
  | cons kv rest ih =>
    obtain ⟨k', v'⟩ := kv
    rw [wcKvs, Bool.and_eq_true] at hwc
    by_cases hk : k' = k
    · subst hk
      simp [alookup] at h
      subst h
      exact hwc.1
    · rw [alookup, if_neg hk] at h
      exact ih hwc.2 h

/-- A valid entry list has no `"not_"` key. -/
theorem wcKvs_no_not_underscore {kvs : List (String × PyVal)}
    (hwc : wcKvs kvs = true) : hasKey "not_" kvs = false := by
  cases h : hasKey "not_" kvs
  · rfl
  · obtain ⟨v, hv⟩ := Option.isSome_iff_exists.mp h
    have := wcEntry_of_alookup hwc hv
    rw [wcEntry_not_underscore] at this
    exact this.symm ▸ rfl

/-- A dict with a condition-type key is non-empty. -/
theorem hasCondKey_ne_nil {kvs : List (String × PyVal)}
    (h : hasCondKey kvs = true) : kvs ≠ [] := by
  intro he
  subst he
  simp [hasCondKey, hasKey, alookup] at h

end CleanSpec

namespace CleanSpec

open PyVal

/-- Lookup over an append: first list wins. -/
theorem alookup_append (k : String) (xs ys : List (String × PyVal)) :
    alookup k (xs ++ ys) =
      (match alookup k xs with
       | some v => some v
       | Option.none => alookup k ys) := by
  induction xs with
  | nil => simp [alookup]
  | cons kv rest ih =>
    obtain ⟨k', v'⟩ := kv
    by_cases hk : k' = k
    · simp [alookup, hk]
    · simp [alookup, hk, ih]

/-- Filtering out another key does not change a lookup. -/
theorem alookup_filter_ne {k s : String} (hks : k ≠ s) (kvs : List (String × PyVal)) :
    alookup k (kvs.filter fun kv => kv.1 ≠ s) = alookup k kvs := by
  induction kvs with
  | nil => rfl
  | cons kv rest ih =>
    obtain ⟨k', v'⟩ := kv
    rw [List.filter_cons]
    by_cases hs : k' = s
    · have hne : k' ≠ k := fun h => hks (h ▸ hs)
      rw [if_neg (by simpa using hs), ih, alookup, if_neg hne]
    · rw [if_pos (by simpa using hs), alookup, alookup, ih]

/-- `renameNot` does not move keys other than `not`/`not_`. -/
theorem renameNot_alookup {k : String} (h1 : k ≠ "not") (h2 : k ≠ "not_")
    (kvs : List (String × PyVal)) :
    alookup k (RCondParse.renameNot kvs) = alookup k kvs := by
  rw [RCondParse.renameNot]
  by_cases hc : hasKey "not" kvs = true ∧ ¬hasKey "not_" kvs = true
  · rw [if_pos hc, alookup_append, alookup_filter_ne h1]
    cases hl : alookup k kvs with
    | some v => rfl
    | none =>
      rw [alookup, if_neg (fun h : "not_" = k => h2 h.symm)]
      rfl
  · rw [if_neg hc]

/-- With `not` present and `not_` absent, `renameNot` moves the `not`
value under `not_`. -/
theorem renameNot_alookup_not {kvs : List (String × PyVal)}
    (h1 : hasKey "not" kvs = true) (h2 : hasKey "not_" kvs = false) :
    alookup "not_" (RCondParse.renameNot kvs) = alookup "not" kvs := by
  rw [RCondParse.renameNot, if_pos ⟨h1, by simp [h2]⟩, alookup_append]
  have hn : alookup "not_" kvs = Option.none := by
    rw [hasKey] at h2
    cases h : alookup "not_" kvs
    · rfl
    · rw [h] at h2; simp at h2
  rw [alookup_filter_ne (by decide) kvs, hn]
  obtain ⟨w, hw⟩ := Option.isSome_iff_exists.mp h1
  simp [alookup, hw]

/-- With `not` absent, `renameNot` is the identity. -/
theorem renameNot_id {kvs : List (String × PyVal)}
    (h1 : hasKey "not" kvs = false) : RCondParse.renameNot kvs = kvs := by
  rw [RCondParse.renameNot, if_neg]
  intro hc
  rw [h1] at hc
  exact absurd hc.1 (by simp)

/-- Entries of `renameNot kvs` other than the moved one come from `kvs`. -/
theorem renameNot_mem {p : String × PyVal} {kvs : List (String × PyVal)}
    (hp : p ∈ RCondParse.renameNot kvs) (hk : p.1 ≠ "not_") : p ∈ kvs := by
  rw [RCondParse.renameNot] at hp
  by_cases hc : hasKey "not" kvs = true ∧ ¬hasKey "not_" kvs = true
  · rw [if_pos hc] at hp
    rcases List.mem_append.mp hp with h | h
    · exact (List.mem_filter.mp h).1
    · simp at h
      exact absurd (congrArg Prod.fst h) (by simpa using hk)
  · rw [if_neg hc] at hp
    exact hp

/-- In a valid entry list, membership gives a valid entry. -/
theorem wcEntry_of_mem {k : String} {v : PyVal} {kvs : List (String × PyVal)}
    (hwc : wcKvs kvs = true) (h : (k, v) ∈ kvs) : wcEntry k v = true := by
  induction kvs with
  | nil => simp at h
  | cons kv rest ih =>
    obtain ⟨k', v'⟩ := kv
    rw [wcKvs, Bool.and_eq_true] at hwc
    rcases List.mem_cons.mp h with hh | hh
    · injection hh with e1 e2
      subst e1; subst e2
      exact hwc.1
    · exact ih hwc.2 hh

/-- A valid composite entry is a non-empty list of valid children. -/
theorem wcEntry_composite {key : String} {v : PyVal}
    (hkey : key = "all" ∨ key = "any" ∨ key = "none")
    (h : wcEntry key v = true) :
    ∃ x xs, v = PyVal.list (x :: xs) ∧ wcItems (x :: xs) = true := by
  rcases hkey with rfl | rfl | rfl <;>
  · cases v with
    | list items =>
      rw [wcEntry, if_pos (by simp)] at h
      rw [Bool.and_eq_true] at h
      cases items with
      | nil => simp at h
      | cons x xs => exact ⟨x, xs, rfl, h.2⟩
    | none => simp [wcEntry] at h
    | bool b => simp [wcEntry] at h
    | num q => simp [wcEntry] at h
    | str s => simp [wcEntry] at h
    | dict ks => rw [wcEntry, if_neg (by decide)] at h; simp at h

/-- If every entry under `key` is a non-empty list, normalisation is the
identity. -/
theorem normalizeListKey_id {key : String} {l : List (String × PyVal)}
    (h : ∀ p ∈ l, p.1 = key → ∃ x xs, p.2 = PyVal.list (x :: xs)) :
    RCondParse.normalizeListKey key l = l := by
  induction l with
  | nil => rfl
  | cons kv rest ih =>
    obtain ⟨k, v⟩ := kv
    rw [RCondParse.normalizeListKey] at ih ⊢
    rw [List.filterMap_cons]
    have hrest : List.filterMap _ rest = rest :=
      ih fun p hp => h p (List.mem_cons_of_mem _ hp)
    by_cases hk : k = key
    · obtain ⟨x, xs, hv⟩ := h (k, v) (List.mem_cons_self _ _) hk
      subst hv
      simp only [hk]
      rw [hrest]
      simp
    · simp only [if_neg hk]
      rw [hrest]

end CleanSpec

namespace CleanSpec

open PyVal

/-- On a valid condition dict the whole before-validator reduces to the
`not` → `not_` rename. -/
theorem validate_eq {kvs : List (String × PyVal)}
    (hcond : hasCondKey kvs = true) (hwc : wcKvs kvs = true) :
    RCondParse.validateConditionStructure kvs = RCondParse.renameNot kvs := by
  have hnu : hasKey "not_" kvs = false := wcKvs_no_not_underscore hwc
  have hh : ∀ k, k ≠ "not" → k ≠ "not_" →
      hasKey k (RCondParse.renameNot kvs) = hasKey k kvs := by
    intro k h1 h2
    rw [hasKey, hasKey, renameNot_alookup h1 h2]
  have hens : RCondParse.ensureConditionType (RCondParse.renameNot kvs) =
      RCondParse.renameNot kvs := by
    rw [RCondParse.ensureConditionType, if_pos ?_]
    rw [hasCondKey] at hcond
    simp only [Bool.or_eq_true] at hcond
    rcases hcond with (((h | h) | h) | h) | h
    · exact Or.inl (by rw [hh "path" (by decide) (by decide)]; exact h)
    · exact Or.inr (Or.inl (by rw [hh "all" (by decide) (by decide)]; exact h))
    · exact Or.inr (Or.inr (Or.inl (by rw [hh "any" (by decide) (by decide)]; exact h)))
    · exact Or.inr (Or.inr (Or.inr (Or.inl
        (by rw [hh "none" (by decide) (by decide)]; exact h))))
    · refine Or.inr (Or.inr (Or.inr (Or.inr ?_)))
      rw [hasKey, renameNot_alookup_not h hnu]
      exact h
  have hn : ∀ (key : String), key = "all" ∨ key = "any" ∨ key = "none" →
      RCondParse.normalizeListKey key (RCondParse.renameNot kvs) =
        RCondParse.renameNot kvs := by
    intro key hkey
    apply normalizeListKey_id
    intro p hp hpk
    have hne : p.1 ≠ "not_" := by
      rw [hpk]
      rcases hkey with rfl | rfl | rfl <;> decide
    have hmem := renameNot_mem hp hne
    have hentry : wcEntry p.1 p.2 = true := wcEntry_of_mem hwc hmem
    rw [hpk] at hentry
    obtain ⟨x, xs, hv, _⟩ := wcEntry_composite hkey hentry
    exact ⟨x, xs, hv⟩
  rw [RCondParse.validateConditionStructure, hens, hn "all" (by simp),
    hn "any" (by simp), hn "none" (by simp)]

/-- A value stored in an association list is smaller than the list. -/
theorem pySize_lt_of_mem_assoc {k : String} {v : PyVal} {kvs : List (String × PyVal)}
    (h : (k, v) ∈ kvs) : Factory.pySize v < Factory.pySizeAssoc kvs := by
  induction kvs with
  | nil => simp at h
  | cons kv rest ih =>
    rw [Factory.pySizeAssoc]
    rcases List.mem_cons.mp h with hh | hh
    · have hv : v = kv.2 := congrArg Prod.snd hh
      rw [hv]
      omega
    · have := ih hh
      omega

/-- A list element is smaller than the list. -/
theorem pySize_lt_of_mem_list {x : PyVal} {xs : List PyVal}
    (h : x ∈ xs) : Factory.pySize x < Factory.pySizeList xs := by
  induction xs with
  | nil => simp at h
  | cons y rest ih =>
    rw [Factory.pySizeList]
    rcases List.mem_cons.mp h with hh | hh
    · subst hh
      omega
    · have := ih hh
      omega

/-- If every element maps successfully, the traversal succeeds with the
related outputs. -/
theorem optionMapList_forall {α β : Type} {f : α → Option β} {P : α → β → Prop} :
    ∀ {xs : List α}, (∀ x ∈ xs, ∃ y, f x = some y ∧ P x y) →
      ∃ ys, optionMapList f xs = some ys ∧ List.Forall₂ P xs ys := by
  intro xs
  induction xs with
  | nil => exact fun _ => ⟨[], rfl, List.Forall₂.nil⟩
  | cons x xs ih =>
    intro h
    obtain ⟨y, hy, hP⟩ := h x (List.mem_cons_self _ _)
    obtain ⟨ys, hys, hF⟩ := ih fun z hz => h z (List.mem_cons_of_mem _ hz)
    exact ⟨y :: ys, by rw [optionMapList]; simp [hy, hys], List.Forall₂.cons hP hF⟩

/-- Cleaning a dumped child list keeps every child (each cleans to a
non-empty dict `==`-equal to the original wire child). -/
theorem cleanItems_rawDumpList {cs : List RCond} {items : List PyVal}
    (h : List.Forall₂ (fun c item => pyEq (RCondSer.serialize c) item = true ∧
        ∃ ks, item = PyVal.dict ks ∧ ks ≠ []) cs items) :
    RCondSer.cleanItems (RCondSer.rawDumpList cs) =
      cs.map (fun c => PyVal.dict (RCondSer.cleanDict (RCondSer.rawDump c))) ∧
    pyEqList (RCondSer.cleanItems (RCondSer.rawDumpList cs)) items = true := by
  induction h with
  | nil => exact ⟨rfl, rfl⟩
  | @cons c item cs' items' hp hrest ih =>
    obtain ⟨hpe, ks, hks, hne⟩ := hp
    have hlen : (RCondSer.cleanDict (RCondSer.rawDump c)).length = ks.length := by
      rw [hks, RCondSer.serialize, pyEq, Bool.and_eq_true] at hpe
      exact of_decide_eq_true hpe.1
    have hnonempty : (RCondSer.cleanDict (RCondSer.rawDump c)).isEmpty = false := by
      cases hcc : RCondSer.cleanDict (RCondSer.rawDump c) with
      | nil =>
        rw [hcc] at hlen
        cases ks with
        | nil => exact absurd rfl hne
        | cons a b => simp at hlen
      | cons a b => rfl
    constructor
    · rw [RCondSer.rawDumpList, RCondSer.cleanItems]
      simp [hnonempty, ih.1]
    · rw [RCondSer.rawDumpList, RCondSer.cleanItems]
      simp only [hnonempty, Bool.false_eq_true, if_false, List.singleton_append,
        pyEqList, Bool.and_eq_true]
      exact ⟨hpe, ih.2⟩

/-- One cleaned output chunk for one wire key: either the key is absent
and the chunk empty, or the chunk is that single key with an `==`-equal
value. -/
def ChunkSpec (E : List (String × PyVal)) (key : String)
    (kvs : List (String × PyVal)) : Prop :=
  (E = [] ∧ hasKey key kvs = false) ∨
  (∃ w u, E = [(key, w)] ∧ alookup key kvs = some u ∧ pyEq w u = true)

/-- The chunks' total length counts the present keys. -/
theorem flatten_length_chunks {kvs : List (String × PyVal)} :
    ∀ {K : List String} {Es : List (List (String × PyVal))},
      List.Forall₂ (fun key E => ChunkSpec E key kvs) K Es →
      Es.flatten.length = (K.filter fun k => hasKey k kvs).length := by
  intro K Es h
  induction h with
  | nil => rfl
  | @cons key E K' Es' hp hrest ih =>
    rw [List.flatten_cons, List.length_append, List.filter_cons]
    rcases hp with ⟨hE, hk⟩ | ⟨w, u, hE, hu, _⟩
    · simp [hE, hk, ih]
    · have hkk : hasKey key kvs = true := by rw [hasKey, hu]; rfl
      simp [hE, hkk, ih]
      omega

/-- Every chunk entry is `==`-included in the wire dict. -/
theorem flatten_pyEqDict_chunks {kvs : List (String × PyVal)} :
    ∀ {K : List String} {Es : List (List (String × PyVal))},
      List.Forall₂ (fun key E => ChunkSpec E key kvs) K Es →
      pyEqDict Es.flatten kvs = true := by
  intro K Es h
  induction h with
  | nil => rfl
  | @cons key E K' Es' hp hrest ih =>
    rw [List.flatten_cons, pyEqDict_append, Bool.and_eq_true]
    refine ⟨?_, ih⟩
    rcases hp with ⟨hE, _⟩ | ⟨w, u, hE, hu, hpe⟩
    · rw [hE]; rfl
    · rw [hE, pyEqDict, hu]
      simp [hpe]
      rfl

/-- Counting: with distinct keys all lying in a duplicate-free key list,
the present keys count the entries. -/
theorem length_filter_hasKey {K : List String} {kvs : List (String × PyVal)}
    (hK : K.Nodup) (hd : keysDistinct kvs = true) (hsub : ∀ p ∈ kvs, p.1 ∈ K) :
    (K.filter fun k => hasKey k kvs).length = kvs.length := by
  have h1 : (K.filter fun k => hasKey k kvs).Nodup := hK.filter _
  have h2 : (kvs.map Prod.fst).Nodup := keysDistinct_iff_nodup.mp hd
  have h3 : (K.filter fun k => hasKey k kvs).toFinset = (kvs.map Prod.fst).toFinset := by
    ext k
    simp only [List.mem_toFinset, List.mem_filter]
    constructor
    · rintro ⟨-, h⟩
      exact hasKey_iff_mem_keys.mp (by simpa using h)
    · intro h
      refine ⟨?_, by simpa using hasKey_iff_mem_keys.mpr h⟩
      obtain ⟨p, hp, rfl⟩ := List.mem_map.mp h
      exact hsub p hp
  have l4 := List.toFinset_card_of_nodup h1
  have l5 := List.toFinset_card_of_nodup h2
  rw [h3, l5] at l4
  rw [← l4, List.length_map]

/-- Assembling the chunks gives a dict Python-equal to the wire dict. -/
theorem dict_pyEq_of_chunks {K : List String} {Es : List (List (String × PyVal))}
    {kvs : List (String × PyVal)}
    (hK : K.Nodup) (hF : List.Forall₂ (fun key E => ChunkSpec E key kvs) K Es)
    (hd : keysDistinct kvs = true) (hsub : ∀ p ∈ kvs, p.1 ∈ K) :
    pyEq (.dict Es.flatten) (.dict kvs) = true := by
  rw [pyEq, Bool.and_eq_true]
  refine ⟨?_, flatten_pyEqDict_chunks hF⟩
  rw [decide_eq_true_eq, flatten_length_chunks hF]
  exact length_filter_hasKey hK hd hsub

end CleanSpec

namespace CleanSpec

open PyVal

/-- Raw dump of an optional string field. -/
def optStrVal : Option String → PyVal
  | some s => .str s
  | Option.none => PyVal.none

/-- Raw dump of an optional child-list field. -/
def childVal : Option (List RCond) → PyVal
  | some cs => .list (RCondSer.rawDumpList cs)
  | Option.none => PyVal.none

/-- Raw dump of the optional `not_` field. -/
def notVal : Option RCond → PyVal
  | some c => .dict (RCondSer.rawDump c)
  | Option.none => PyVal.none

/-- The raw dump written with the field-dump helpers. -/
theorem rawDump_eq (p o : Option String) (vv : Option PyVal)
    (a y n : Option (List RCond)) (t : Option RCond) :
    RCondSer.rawDump (RCond.mk p o vv a y n t) =
      [("path", optStrVal p), ("operator", optStrVal o),
       ("value", vv.getD PyVal.none), ("all", childVal a), ("any", childVal y),
       ("none", childVal n), ("not", notVal t)] := by
  cases p <;> cases o <;> cases a <;> cases y <;> cases n <;> cases t <;> rfl

/-- Flip a pointwise relation between two lists. -/
theorem forall₂_swap {α β : Type} {R : α → β → Prop} :
    ∀ {l₁ : List α} {l₂ : List β}, List.Forall₂ R l₁ l₂ →
      List.Forall₂ (fun b a => R a b) l₂ l₁ := by
  intro l₁ l₂ h
  induction h with
  | nil => exact List.Forall₂.nil
  | cons h₁ _ ih => exact List.Forall₂.cons h₁ ih

/-- Members of a valid child list are valid children. -/
theorem wcItem_of_mem {item : PyVal} {items : List PyVal}
    (h : wcItems items = true) (hm : item ∈ items) : wcItem item = true := by
  induction items with
  | nil => simp at hm
  | cons x rest ih =>
    rw [wcItems, Bool.and_eq_true] at h
    rcases List.mem_cons.mp hm with hh | hh
    · subst hh
      exact h.1
    · exact ih h.2 hh

/-- Parsing and re-serialising a valid composite child list: every child
parses, and the cleaned dump of the parsed children matches the input list
elementwise. -/
theorem composite_children {f : Nat} {items : List PyVal}
    (ihf : ∀ kvs', Factory.pySizeAssoc kvs' < f →
      hasCondKey kvs' = true → keysDistinct kvs' = true → wcKvs kvs' = true →
      ∃ c, RCondParse.parseCondF f (.dict kvs') = some c ∧
        pyEq (RCondSer.serialize c) (.dict kvs') = true)
    (hitems : wcItems items = true)
    (hsl : Factory.pySizeList items ≤ f) :
    ∃ cs, optionMapList (RCondParse.parseCondF f) items = some cs ∧
      items.length = cs.length ∧
      RCondSer.cleanItems (RCondSer.rawDumpList cs) =
        cs.map (fun c => PyVal.dict (RCondSer.cleanDict (RCondSer.rawDump c))) ∧
      pyEqList (RCondSer.cleanItems (RCondSer.rawDumpList cs)) items = true := by
  have hmem : ∀ item ∈ items, ∃ c, RCondParse.parseCondF f item = some c ∧
      (pyEq (RCondSer.serialize c) item = true ∧
        ∃ ks, item = PyVal.dict ks ∧ ks ≠ []) := by
    intro item hm
    have hwi : wcItem item = true := wcItem_of_mem hitems hm
    cases item with
    | dict ks =>
      rw [wcItem, Bool.and_eq_true, Bool.and_eq_true] at hwi
      obtain ⟨⟨hc, hdk⟩, hwk⟩ := hwi
      have hsz : Factory.pySizeAssoc ks < f := by
        have h1 := pySize_lt_of_mem_list hm
        have h2 : Factory.pySize (PyVal.dict ks) = Factory.pySizeAssoc ks + 1 := rfl
        omega
      obtain ⟨c, hc1, hc2⟩ := ihf ks hsz hc hdk hwk
      exact ⟨c, hc1, hc2, ks, rfl, hasCondKey_ne_nil hc⟩
    | none => simp [wcItem] at hwi
    | bool b => simp [wcItem] at hwi
    | num q => simp [wcItem] at hwi
    | str s => simp [wcItem] at hwi
    | list xs => simp [wcItem] at hwi
  obtain ⟨cs, hcs, hF⟩ := optionMapList_forall hmem
  have hclean := cleanItems_rawDumpList (forall₂_swap hF)
  exact ⟨cs, hcs, hF.length_eq, hclean.1, hclean.2⟩

end CleanSpec

namespace CleanSpec

open PyVal

/-- Round-trip core: a structurally valid clean condition dict parses, and
the parsed model serialises back to a Python-equal value. -/
theorem parse_serialize_aux :
    ∀ (fuel : Nat) (kvs : List (String × PyVal)),
      Factory.pySizeAssoc kvs < fuel →
      hasCondKey kvs = true → keysDistinct kvs = true → wcKvs kvs = true →
      ∃ c, RCondParse.parseCondF fuel (.dict kvs) = some c ∧
        pyEq (RCondSer.serialize c) (.dict kvs) = true := by
  intro fuel
  induction fuel with
  | zero =>
    intro kvs h
    exact absurd h (Nat.not_lt_zero _)
  | succ f ih =>
    intro kvs hsz hcond hdist hwc
    have hval : RCondParse.validateConditionStructure kvs = RCondParse.renameNot kvs :=
      validate_eq hcond hwc
    obtain ⟨p, hp_parse, hp_chunk⟩ :
        ∃ p : Option String,
          RCondParse.parseOptStr (alookup "path" (RCondParse.renameNot kvs)) = some p ∧
          ChunkSpec (RCondSer.cleanEntry "path" (optStrVal p)) "path" kvs := by
      rw [renameNot_alookup (by decide) (by decide)]
      cases hP : alookup "path" kvs with
      | none => exact ⟨Option.none, rfl, Or.inl ⟨rfl, by rw [hasKey, hP]; rfl⟩⟩
      | some v =>
        have hv := wcEntry_of_alookup hwc hP
        cases v with
        | str s => exact ⟨some s, rfl, Or.inr ⟨.str s, .str s, rfl, hP, by simp [pyEq]⟩⟩
        | none => simp [wcEntry] at hv
        | bool b => simp [wcEntry] at hv
        | num q => simp [wcEntry] at hv
        | list items => rw [wcEntry, if_neg (by decide)] at hv; simp at hv
        | dict ks => rw [wcEntry, if_neg (by decide)] at hv; simp at hv
    obtain ⟨o, ho_parse, ho_chunk⟩ :
        ∃ o : Option String,
          RCondParse.parseOptStr (alookup "operator" (RCondParse.renameNot kvs)) = some o ∧
          ChunkSpec (RCondSer.cleanEntry "operator" (optStrVal o)) "operator" kvs := by
      rw [renameNot_alookup (by decide) (by decide)]
      cases hP : alookup "operator" kvs with
      | none => exact ⟨Option.none, rfl, Or.inl ⟨rfl, by rw [hasKey, hP]; rfl⟩⟩
      | some v =>
        have hv := wcEntry_of_alookup hwc hP
        cases v with
        | str s => exact ⟨some s, rfl, Or.inr ⟨.str s, .str s, rfl, hP, by simp [pyEq]⟩⟩
        | none => simp [wcEntry] at hv
        | bool b => simp [wcEntry] at hv
        | num q => simp [wcEntry] at hv
        | list items => rw [wcEntry, if_neg (by decide)] at hv; simp at hv
        | dict ks => rw [wcEntry, if_neg (by decide)] at hv; simp at hv
    obtain ⟨vv, hv_parse, hv_chunk⟩ :
        ∃ vv : Option PyVal,
          RCondParse.parseValueField (alookup "value" (RCondParse.renameNot kvs)) = vv ∧
          ChunkSpec (RCondSer.cleanEntry "value" (vv.getD PyVal.none)) "value" kvs := by
      rw [renameNot_alookup (by decide) (by decide)]
      cases hP : alookup "value" kvs with
      | none => exact ⟨Option.none, rfl, Or.inl ⟨rfl, by rw [hasKey, hP]; rfl⟩⟩
      | some w =>
        have hv := wcEntry_of_alookup hwc hP
        cases w with
        | none => simp [wcEntry] at hv
        | bool b =>
          exact ⟨some (.bool b), rfl,
            Or.inr ⟨.bool b, .bool b, rfl, hP, by simp [pyEq]⟩⟩
        | num q =>
          exact ⟨some (.num q), rfl,
            Or.inr ⟨.num q, .num q, rfl, hP, by simp [pyEq]⟩⟩
        | str s =>
          exact ⟨some (.str s), rfl,
            Or.inr ⟨.str s, .str s, rfl, hP, by simp [pyEq]⟩⟩
        | list xs =>
          rw [wcEntry, if_neg (by decide), Bool.and_eq_true] at hv
          refine ⟨some (.list xs), rfl,
            Or.inr ⟨.list xs, .list xs, ?_, hP, pyEq_refl_all.1 _ ?_⟩⟩
          · rfl
          · rw [jsonOk]
            exact hv.2
        | dict ks =>
          rw [wcEntry, if_neg (by decide), Bool.and_eq_true, Bool.and_eq_true] at hv
          refine ⟨some (.dict ks), rfl,
            Or.inr ⟨.dict ks, .dict ks, ?_, hP, pyEq_refl_all.1 _ ?_⟩⟩
          · rfl
          · rw [jsonOk, Bool.and_eq_true]
            exact ⟨hv.1.2, hv.2⟩
    obtain ⟨a, ha_parse, ha_chunk⟩ :
        ∃ a : Option (List RCond),
          RCondParse.parseKidsWith (RCondParse.parseCondF f)
            (alookup "all" (RCondParse.renameNot kvs)) = some a ∧
          ChunkSpec (RCondSer.cleanEntry "all" (childVal a)) "all" kvs := by
      rw [renameNot_alookup (by decide) (by decide)]
      cases hP : alookup "all" kvs with
      | none => exact ⟨Option.none, rfl, Or.inl ⟨rfl, by rw [hasKey, hP]; rfl⟩⟩
      | some v =>
        have hv := wcEntry_of_alookup hwc hP
        obtain ⟨x, xs, rfl, hitems⟩ := wcEntry_composite (by simp) hv
        have hsl : Factory.pySizeList (x :: xs) ≤ f := by
          have h1 := pySize_lt_of_mem_assoc (alookup_mem hP)
          have h2 : Factory.pySize (PyVal.list (x :: xs)) =
              Factory.pySizeList (x :: xs) + 1 := rfl
          omega
        obtain ⟨cs, hcs, hlen, hmap, hpel⟩ := composite_children ih hitems hsl
        have hcsne : cs ≠ [] := by
          intro h
          rw [h] at hlen
          simp at hlen
        have hie : (RCondSer.cleanItems (RCondSer.rawDumpList cs)).isEmpty = false := by
          rw [hmap]
          cases cs with
          | nil => exact absurd rfl hcsne
          | cons c cs' => rfl
        refine ⟨some cs, ?_,
          Or.inr ⟨.list (RCondSer.cleanItems (RCondSer.rawDumpList cs)),
            .list (x :: xs), ?_, hP, ?_⟩⟩
        · show (optionMapList (RCondParse.parseCondF f) (x :: xs)).map some = some (some cs)
          rw [hcs]
          rfl
        · show RCondSer.cleanEntry "all" (.list (RCondSer.rawDumpList cs)) = _
          rw [RCondSer.cleanEntry, if_pos (by simp)]
          simp [hie]
        · rw [pyEq]
          exact hpel
    obtain ⟨y, hy_parse, hy_chunk⟩ :
        ∃ y : Option (List RCond),
          RCondParse.parseKidsWith (RCondParse.parseCondF f)
            (alookup "any" (RCondParse.renameNot kvs)) = some y ∧
          ChunkSpec (RCondSer.cleanEntry "any" (childVal y)) "any" kvs := by
      rw [renameNot_alookup (by decide) (by decide)]
      cases hP : alookup "any" kvs with
      | none => exact ⟨Option.none, rfl, Or.inl ⟨rfl, by rw [hasKey, hP]; rfl⟩⟩
      | some v =>
        have hv := wcEntry_of_alookup hwc hP
        obtain ⟨x, xs, rfl, hitems⟩ := wcEntry_composite (by simp) hv
        have hsl : Factory.pySizeList (x :: xs) ≤ f := by
          have h1 := pySize_lt_of_mem_assoc (alookup_mem hP)
          have h2 : Factory.pySize (PyVal.list (x :: xs)) =
              Factory.pySizeList (x :: xs) + 1 := rfl
          omega
        obtain ⟨cs, hcs, hlen, hmap, hpel⟩ := composite_children ih hitems hsl
        have hcsne : cs ≠ [] := by
          intro h
          rw [h] at hlen
          simp at hlen
        have hie : (RCondSer.cleanItems (RCondSer.rawDumpList cs)).isEmpty = false := by
          rw [hmap]
          cases cs with
          | nil => exact absurd rfl hcsne
          | cons c cs' => rfl
        refine ⟨some cs, ?_,
          Or.inr ⟨.list (RCondSer.cleanItems (RCondSer.rawDumpList cs)),
            .list (x :: xs), ?_, hP, ?_⟩⟩
        · show (optionMapList (RCondParse.parseCondF f) (x :: xs)).map some = some (some cs)
          rw [hcs]
          rfl
        · show RCondSer.cleanEntry "any" (.list (RCondSer.rawDumpList cs)) = _
          rw [RCondSer.cleanEntry, if_pos (by simp)]
          simp [hie]
        · rw [pyEq]
          exact hpel
    obtain ⟨n, hn_parse, hn_chunk⟩ :
        ∃ n : Option (List RCond),
          RCondParse.parseKidsWith (RCondParse.parseCondF f)
            (alookup "none" (RCondParse.renameNot kvs)) = some n ∧
          ChunkSpec (RCondSer.cleanEntry "none" (childVal n)) "none" kvs := by
      rw [renameNot_alookup (by decide) (by decide)]
      cases hP : alookup "none" kvs with
      | none => exact ⟨Option.none, rfl, Or.inl ⟨rfl, by rw [hasKey, hP]; rfl⟩⟩
      | some v =>
        have hv := wcEntry_of_alookup hwc hP
        obtain ⟨x, xs, rfl, hitems⟩ := wcEntry_composite (by simp) hv
        have hsl : Factory.pySizeList (x :: xs) ≤ f := by
          have h1 := pySize_lt_of_mem_assoc (alookup_mem hP)
          have h2 : Factory.pySize (PyVal.list (x :: xs)) =
              Factory.pySizeList (x :: xs) + 1 := rfl
          omega
        obtain ⟨cs, hcs, hlen, hmap, hpel⟩ := composite_children ih hitems hsl
        have hcsne : cs ≠ [] := by
          intro h
          rw [h] at hlen
          simp at hlen
        have hie : (RCondSer.cleanItems (RCondSer.rawDumpList cs)).isEmpty = false := by
          rw [hmap]
          cases cs with
          | nil => exact absurd rfl hcsne
          | cons c cs' => rfl
        refine ⟨some cs, ?_,
          Or.inr ⟨.list (RCondSer.cleanItems (RCondSer.rawDumpList cs)),
            .list (x :: xs), ?_, hP, ?_⟩⟩
        · show (optionMapList (RCondParse.parseCondF f) (x :: xs)).map some = some (some cs)
          rw [hcs]
          rfl
        · show RCondSer.cleanEntry "none" (.list (RCondSer.rawDumpList cs)) = _
          rw [RCondSer.cleanEntry, if_pos (by simp)]
          simp [hie]
        · rw [pyEq]
          exact hpel
    obtain ⟨t, ht_parse, ht_chunk⟩ :
        ∃ t : Option RCond,
          RCondParse.parseNotWith (RCondParse.parseCondF f)
            (alookup "not_" (RCondParse.renameNot kvs)) = some t ∧
          ChunkSpec (RCondSer.cleanEntry "not" (notVal t)) "not" kvs := by
      cases hNK : hasKey "not" kvs with
      | false =>
        have hrn : alookup "not_" (RCondParse.renameNot kvs) = Option.none := by
          rw [renameNot_id hNK]
          have h2 := wcKvs_no_not_underscore hwc
          rw [hasKey] at h2
          cases h : alookup "not_" kvs with
          | none => rfl
          | some w => rw [h] at h2; simp at h2
        exact ⟨Option.none, by rw [hrn]; rfl, Or.inl ⟨rfl, hNK⟩⟩
      | true =>
        have hNK' : (alookup "not" kvs).isSome = true := hNK
        obtain ⟨w, hw⟩ := Option.isSome_iff_exists.mp hNK'
        have hrn : alookup "not_" (RCondParse.renameNot kvs) = some w := by
          rw [renameNot_alookup_not hNK (wcKvs_no_not_underscore hwc), hw]
        have hv := wcEntry_of_alookup hwc hw
        cases w with
        | dict ks =>
          rw [wcEntry, if_pos rfl, Bool.and_eq_true, Bool.and_eq_true] at hv
          obtain ⟨⟨hc, hdk⟩, hwk⟩ := hv
          have hsz2 : Factory.pySizeAssoc ks < f := by
            have h1 := pySize_lt_of_mem_assoc (alookup_mem hw)
            have h2 : Factory.pySize (PyVal.dict ks) = Factory.pySizeAssoc ks + 1 := rfl
            omega
          obtain ⟨c, hc1, hc2⟩ := ih ks hsz2 hc hdk hwk
          have hlen : (RCondSer.cleanDict (RCondSer.rawDump c)).length = ks.length := by
            rw [RCondSer.serialize, pyEq, Bool.and_eq_true] at hc2
            exact of_decide_eq_true hc2.1
          have hie : (RCondSer.cleanDict (RCondSer.rawDump c)).isEmpty = false := by
            cases hcc : RCondSer.cleanDict (RCondSer.rawDump c) with
            | nil =>
              rw [hcc] at hlen
              have := hasCondKey_ne_nil hc
              cases ks with
              | nil => exact absurd rfl this
              | cons q qs => simp at hlen
            | cons q qs => rfl
          refine ⟨some c, ?_,
            Or.inr ⟨.dict (RCondSer.cleanDict (RCondSer.rawDump c)), .dict ks, ?_, hw, ?_⟩⟩
          · rw [hrn]
            show (RCondParse.parseCondF f (PyVal.dict ks)).map some = some (some c)
            rw [hc1]
            rfl
          · show RCondSer.cleanEntry "not" (.dict (RCondSer.rawDump c)) = _
            rw [RCondSer.cleanEntry, if_pos rfl]
            simp [hie]
          · rw [RCondSer.serialize] at hc2
            exact hc2
        | none => simp [wcEntry] at hv
        | bool b => simp [wcEntry] at hv
        | num q => simp [wcEntry] at hv
        | str s => simp [wcEntry] at hv
        | list xs => rw [wcEntry, if_neg (by decide)] at hv; simp at hv
    have hsub : ∀ q ∈ kvs, q.1 ∈ ["path", "operator", "value", "all", "any", "none", "not"] :=
      fun q hq => wcEntry_key_mem (wcEntry_of_mem hwc hq)
    refine ⟨RCond.mk p o vv a y n t, ?_, ?_⟩
    · simp only [RCondParse.parseCondF]
      rw [hval, hp_parse, ho_parse, hv_parse, ha_parse, hy_parse, hn_parse, ht_parse]
      rfl
    · rw [RCondSer.serialize]
      have hflat : RCondSer.cleanDict (RCondSer.rawDump (RCond.mk p o vv a y n t)) =
          ([RCondSer.cleanEntry "path" (optStrVal p),
            RCondSer.cleanEntry "operator" (optStrVal o),
            RCondSer.cleanEntry "value" (vv.getD PyVal.none),
            RCondSer.cleanEntry "all" (childVal a),
            RCondSer.cleanEntry "any" (childVal y),
            RCondSer.cleanEntry "none" (childVal n),
            RCondSer.cleanEntry "not" (notVal t)]).flatten := by
        rw [rawDump_eq]
        rfl
      rw [hflat]
      exact dict_pyEq_of_chunks (by decide)
        (List.Forall₂.cons hp_chunk (List.Forall₂.cons ho_chunk
          (List.Forall₂.cons hv_chunk (List.Forall₂.cons ha_chunk
            (List.Forall₂.cons hy_chunk (List.Forall₂.cons hn_chunk
              (List.Forall₂.cons ht_chunk List.Forall₂.nil)))))))
        hdist hsub

end CleanSpec

/-- A concrete nested clean wire condition used to instantiate the
round-trip. -/
def c7v : PyVal :=
  .dict [("path", .str "$.a"), ("operator", .str "equal"), ("value", .num 1),
         ("not", .dict [("any", .list [.dict [("path", .str "$.b"),
           ("operator", .str "exists"), ("value", .bool true)]])])]

/-- A concrete condition model used to instantiate serialisation
cleanliness. -/
def c7c : RCond :=
  RCond.mk (some "$.v") Option.none Option.none
    (some [RCond.empty]) Option.none Option.none (some RCond.empty)

/-- C7 counterexample: the dict `{"operator": "eq"}` is clean as the claim
states (no nulls, no empty composites, no absent `not` body), yet parsing
resets it to the all-`None` model — the validator finds no condition-type
key — and re-serialising gives `{}`, not a value equal to the input.  The
round-trip half of the claim is false without a structural-validity
premiss. -/
theorem C7_counterexample :
    CleanSpec.cleanOut (.dict [("operator", .str "eq")]) = true ∧
    RCondParse.parseCond (.dict [("operator", .str "eq")]) = some RCond.empty ∧
    PyVal.pyEq (RCondSer.serialize RCond.empty) (.dict [("operator", .str "eq")]) = false :=
  ⟨by decide, rfl, by decide⟩

/-- C7: (1) every serialised condition is clean at every nesting depth — no
null-valued key, `all`/`any`/`none` only with non-empty (clean) child
lists, `not` only with a non-empty (clean) body; (2) amended round-trip:
every clean wire condition that is structurally valid (`wireClean`: at
every level a condition-type key, only recognised keys with type-correct
values, distinct keys) parses, and serialising the parsed model returns a
value Python-equal to the input. -/
theorem C7_serialisation :
    (∀ c : RCond, CleanSpec.cleanOut (RCondSer.serialize c) = true) ∧
    (∀ v : PyVal, CleanSpec.wireClean v = true →
      ∃ c, RCondParse.parseCond v = some c ∧
        PyVal.pyEq (RCondSer.serialize c) v = true) := by
  constructor
  · intro c
    rw [RCondSer.serialize]
    exact CleanSpec.cleaner_is_clean.1 _
  · intro v hv
    cases v with
    | dict kvs =>
      rw [CleanSpec.wireClean, Bool.and_eq_true, Bool.and_eq_true] at hv
      obtain ⟨⟨hc, hd⟩, hw⟩ := hv
      exact CleanSpec.parse_serialize_aux (Factory.pySize (PyVal.dict kvs)) kvs
        (by rw [show Factory.pySize (PyVal.dict kvs) = Factory.pySizeAssoc kvs + 1 from rfl]
            omega)
        hc hd hw
    | none => simp [CleanSpec.wireClean] at hv
    | bool b => simp [CleanSpec.wireClean] at hv
    | num q => simp [CleanSpec.wireClean] at hv
    | str s => simp [CleanSpec.wireClean] at hv
    | list xs => simp [CleanSpec.wireClean] at hv

/-- Witness: the cleanliness half evaluated at a concrete model with an
`all` list and a `not` body, and the round-trip half applied to a concrete
nested clean wire condition. -/
theorem C7_serialisation_witness :
    CleanSpec.cleanOut (RCondSer.serialize c7c) = true ∧
    (CleanSpec.wireClean c7v = true ∧
      ∃ c, RCondParse.parseCond c7v = some c ∧
        PyVal.pyEq (RCondSer.serialize c) c7v = true) :=
  ⟨C7_serialisation.1 c7c, by decide, C7_serialisation.2 c7v (by decide)⟩
